import Mathlib

/-!
# WebWrapCLI: the PNG to ICO conversion core

A shallow embedding of `src/IconHelper.cpp` (with the packed structures of
`src/IconHelper.h`) and of `isValidUrl` from `src/main.cpp`, and the
properties of the icon encoder, the format sniffer, the rescaler and the
path-keyed conversion cache.

Conventions of the embedding:

* a `std::wstring` is a list of UTF-16 code units (`WString`);
* a byte is a natural number below 256, a file is a list of bytes;
* `UINT`/`DWORD` arithmetic is natural-number arithmetic reduced `% 2 ^ 32`
  at the places where the source computes in 32 bits;
* `float` arithmetic is IEEE binary32 on exact fractions, each operation
  rounded to 24 significant bits (ties to even);
* calls into the operating system and the imaging library (path resolution,
  the temp directory, the PNG decoder, drawing, file creation) are fields of a
  `Platform` record, so every theorem holds for whatever the platform does.
-/

namespace IconHelper

/-! ## Strings and little-endian memory images -/

/-- A wide string: the UTF-16 code units of a `std::wstring`. -/
abbrev WString := List Nat

/-- The wide-string literal `L"..."` of an ASCII text. -/
def L (s : String) : WString := s.toList.map Char.toNat

/-- Memory image of a `BYTE`. -/
def u8 (v : Nat) : List Nat := [v % 256]

/-- Memory image of a `WORD` (two bytes, least significant first). -/
def u16le (v : Nat) : List Nat := [v % 256, v / 256 % 256]

/-- Memory image of a `DWORD` or `LONG` (four bytes, least significant first). -/
def u32le (v : Nat) : List Nat :=
  [v % 256, v / 256 % 256, v / 65536 % 256, v / 16777216 % 256]

/-! ## Format sniffer (`IsPngFile`, `IsIcoFile`) -/

/-- The C-locale `towlower`: only `A`..`Z` (65..90) are mapped, to `a`..`z`. -/
def towlower (c : Nat) : Nat := if 65 ≤ c ∧ c ≤ 90 then c + 32 else c

/-- Scan of `PathFindExtensionW`: `lastpoint` is the suffix starting at the
last dot seen that is not followed by a backslash (92) or a space (32). -/
def findExtension : WString → Option WString → WString
  | [], lastpoint => lastpoint.getD []
  | c :: rest, lastpoint =>
    if c = 92 ∨ c = 32 then findExtension rest none
    else if c = 46 then findExtension rest (some (c :: rest))
    else findExtension rest lastpoint

/-- The shell helper `PathFindExtensionW`: the suffix of the path starting at
the dot of its extension, or the empty string when there is no extension. -/
def PathFindExtensionW (path : WString) : WString := findExtension path none

/-- The extension of the path after `std::transform(..., ::towlower)`. -/
def lowerExt (path : WString) : WString := (PathFindExtensionW path).map towlower

/-- Source: `IconHelper::IsPngFile`. -/
def IsPngFile (path : WString) : Bool := lowerExt path == L ".png"

/-- Source: `IconHelper::IsIcoFile`. -/
def IsIcoFile (path : WString) : Bool := lowerExt path == L ".ico"

/-! ## Target size selection -/

/-- The canonical icon sizes. -/
def canonicalSizes : List Nat := [16, 32, 48, 64, 128, 256]

/-- Source: the `if`/`else if` chain of `ConvertPngToIco` that picks
`targetSize` from the decoded `width` and `height` (default 256). -/
def targetSize (width height : Nat) : Nat :=
  if width ≤ 16 ∨ height ≤ 16 then 16
  else if width ≤ 32 ∨ height ≤ 32 then 32
  else if width ≤ 48 ∨ height ≤ 48 then 48
  else if width ≤ 64 ∨ height ≤ 64 then 64
  else if width ≤ 128 ∨ height ≤ 128 then 128
  else 256

/-! ## The ICO container structures -/

/-- Source: `ICONDIR` of `IconHelper.h` (packed, three `WORD`s). -/
structure ICONDIR where
  idReserved : Nat
  idType : Nat
  idCount : Nat
deriving DecidableEq, Repr

/-- Source: `ICONDIRENTRY` of `IconHelper.h` (packed). -/
structure ICONDIRENTRY where
  bWidth : Nat
  bHeight : Nat
  bColorCount : Nat
  bReserved : Nat
  wPlanes : Nat
  wBitCount : Nat
  dwBytesInRes : Nat
  dwImageOffset : Nat
deriving DecidableEq, Repr

/-- The platform structure `BITMAPINFOHEADER` (eleven fields, 40 bytes). -/
structure BITMAPINFOHEADER where
  biSize : Nat
  biWidth : Nat
  biHeight : Nat
  biPlanes : Nat
  biBitCount : Nat
  biCompression : Nat
  biSizeImage : Nat
  biXPelsPerMeter : Nat
  biYPelsPerMeter : Nat
  biClrUsed : Nat
  biClrImportant : Nat
deriving DecidableEq, Repr

/-- The value of `sizeof(ICONDIR)`. -/
def sizeofICONDIR : Nat := 6

/-- The value of `sizeof(ICONDIRENTRY)`. -/
def sizeofICONDIRENTRY : Nat := 16

/-- The value of `sizeof(BITMAPINFOHEADER)`. -/
def sizeofBITMAPINFOHEADER : Nat := 40

/-- The platform constant `BI_RGB`. -/
def BI_RGB : Nat := 0

/-- The bytes `WriteFile(hFile, &iconDir, sizeof(ICONDIR), ...)` writes. -/
def ICONDIR.bytes (d : ICONDIR) : List Nat :=
  u16le d.idReserved ++ u16le d.idType ++ u16le d.idCount

/-- The bytes `WriteFile(hFile, &iconEntry, sizeof(ICONDIRENTRY), ...)` writes. -/
def ICONDIRENTRY.bytes (e : ICONDIRENTRY) : List Nat :=
  u8 e.bWidth ++ u8 e.bHeight ++ u8 e.bColorCount ++ u8 e.bReserved ++
  u16le e.wPlanes ++ u16le e.wBitCount ++ u32le e.dwBytesInRes ++ u32le e.dwImageOffset

/-- The bytes `WriteFile(hFile, &bmih, sizeof(BITMAPINFOHEADER), ...)` writes. -/
def BITMAPINFOHEADER.bytes (h : BITMAPINFOHEADER) : List Nat :=
  u32le h.biSize ++ u32le h.biWidth ++ u32le h.biHeight ++
  u16le h.biPlanes ++ u16le h.biBitCount ++ u32le h.biCompression ++
  u32le h.biSizeImage ++ u32le h.biXPelsPerMeter ++ u32le h.biYPelsPerMeter ++
  u32le h.biClrUsed ++ u32le h.biClrImportant

/-- Source: the `ICONDIR` that `ConvertPngToIco` fills in. -/
def iconDir : ICONDIR :=
  { idReserved := 0, idType := 1, idCount := 1 }

/-- Source: `DWORD imageSize = sizeof(BITMAPINFOHEADER) + (targetSize * targetSize * 4)`,
computed in 32 bits. -/
def imageSize (targetSize : Nat) : Nat :=
  (sizeofBITMAPINFOHEADER + (targetSize * targetSize * 4) % 2 ^ 32) % 2 ^ 32

/-- Source: the `ICONDIRENTRY` that `ConvertPngToIco` fills in; the two
`(BYTE)targetSize` casts keep the low eight bits. -/
def iconEntry (targetSize : Nat) : ICONDIRENTRY :=
  { bWidth := targetSize % 256
    bHeight := targetSize % 256
    bColorCount := 0
    bReserved := 0
    wPlanes := 1
    wBitCount := 32
    dwBytesInRes := imageSize targetSize
    dwImageOffset := sizeofICONDIR + sizeofICONDIRENTRY }

/-- Source: the zeroed `BITMAPINFOHEADER bmih` with the six fields that
`ConvertPngToIco` assigns. -/
def bmih (targetSize : Nat) : BITMAPINFOHEADER :=
  { biSize := sizeofBITMAPINFOHEADER
    biWidth := targetSize
    biHeight := (targetSize * 2) % 2 ^ 32
    biPlanes := 1
    biBitCount := 32
    biCompression := BI_RGB
    biSizeImage := 0
    biXPelsPerMeter := 0
    biYPelsPerMeter := 0
    biClrUsed := 0
    biClrImportant := 0 }

/-! ## Pixels -/

/-- One 32-bit pixel of the square canvas. -/
structure Pixel where
  r : Fin 256
  g : Fin 256
  b : Fin 256
  a : Fin 256
deriving DecidableEq, Repr

/-- The square canvas held by the icon: `canvas y x` is the pixel of row `y`
(row 0 is the top row) and column `x`. -/
abbrev Canvas := Nat → Nat → Pixel

/-- A 32-bit `BI_RGB` pixel in memory: blue, green, red, alpha. -/
def pixelBytes (p : Pixel) : List Nat := [p.b.val, p.g.val, p.r.val, p.a.val]

/-- One row of the buffer that `GetDIBits` fills. -/
def dibRow (canvas : Canvas) (targetSize y : Nat) : List Nat :=
  (List.range targetSize).flatMap (fun x => pixelBytes (canvas y x))

/-- The platform call `GetDIBits(hdc, hbmColor, 0, targetSize, bits, &bmi, DIB_RGB_COLORS)`
with the top-down 32-bit `BI_RGB` header the source passes: the buffer `bits`
receives the rows of the canvas from the top one down, four bytes per pixel. -/
def GetDIBits (canvas : Canvas) (targetSize : Nat) : List Nat :=
  (List.range targetSize).flatMap (fun y => dibRow canvas targetSize y)

/-- Source: one `WriteFile(hFile, bits + (y * targetSize * 4), targetSize * 4, ...)`;
offset and length are 32-bit products. -/
def writeRow (bits : List Nat) (targetSize y : Nat) : List Nat :=
  (bits.drop ((y * targetSize * 4) % 2 ^ 32)).take ((targetSize * 4) % 2 ^ 32)

/-- Source: `for (int y = targetSize - 1; y >= 0; y--)` writing one row per
iteration; `writeRows bits targetSize n` is the output of the iterations
`y = n - 1, ..., 0`. -/
def writeRows (bits : List Nat) (targetSize : Nat) : Nat → List Nat
  | 0 => []
  | y + 1 => writeRow bits targetSize y ++ writeRows bits targetSize y

/-- Source: everything `ConvertPngToIco` writes to the ICO file, in order: the
file header, the directory entry, the bitmap header and the pixel rows. -/
def icoFileBytes (targetSize : Nat) (bits : List Nat) : List Nat :=
  iconDir.bytes ++ (iconEntry targetSize).bytes ++ (bmih targetSize).bytes ++
  writeRows bits targetSize targetSize

/-! ## Single-precision arithmetic of the rescaler

`float` values are IEEE binary32 numbers. Only non-negative finite values in
the normal range occur in `ConvertPngToIco`, and they are kept as exact
fractions `num / den`. Every operation rounds its exact result to 24
significant bits, ties to even. -/

/-- Halving loop behind `ilog2`. -/
def ilog2Fuel : Nat → Nat → Nat
  | 0, _ => 0
  | fuel + 1, n => if n < 2 then 0 else ilog2Fuel fuel (n / 2) + 1

/-- Position of the highest set bit of `n` (0 for `n ≤ 1`). -/
def ilog2 (n : Nat) : Nat := ilog2Fuel n n

/-- A non-negative `float` value, the fraction `num / den`. -/
structure F32 where
  num : Nat
  den : Nat
deriving DecidableEq, Repr

/-- The fraction `a / b` rounded to the nearest integer, ties to even. -/
def roundHalfEven (a b : Nat) : Nat :=
  let f := a / b
  let r := a % b
  if 2 * r < b then f
  else if b < 2 * r then f + 1
  else if f % 2 = 0 then f else f + 1

/-- The fraction `n / d` rounded to a `float`: the fraction is scaled by the
power of two that brings it into `[2 ^ 23, 2 ^ 24)`, rounded to an integer
(ties to even) and scaled back. -/
def roundF32 (n d : Nat) : F32 :=
  if n = 0 then ⟨0, 1⟩
  else
    let a := ilog2 n
    let b := ilog2 d
    let up := 23 + b + (if d * 2 ^ a ≤ n * 2 ^ b then 0 else 1)
    if a ≤ up then ⟨roundHalfEven (n * 2 ^ (up - a)) d, 2 ^ (up - a)⟩
    else ⟨roundHalfEven n (d * 2 ^ (a - up)) * 2 ^ (a - up), 1⟩

/-- The conversion `(float)n` of a `UINT`. -/
def F32.ofUINT (n : Nat) : F32 := roundF32 n 1

/-- The `float` division `x / y`. -/
def F32.div (x y : F32) : F32 := roundF32 (x.num * y.den) (x.den * y.num)

/-- The `float` product `x * y`. -/
def F32.mul (x y : F32) : F32 := roundF32 (x.num * y.num) (x.den * y.den)

/-- The comparison `x < y` of two `float`s. -/
def F32.lt (x y : F32) : Bool := decide (x.num * y.den < y.num * x.den)

/-- The platform macro `min(a, b)`, that is `((a) < (b)) ? (a) : (b)`. -/
def F32.min (x y : F32) : F32 := if x.lt y then x else y

/-- The cast `(UINT)x`: the fraction is truncated toward zero. -/
def F32.toUINT (x : F32) : Nat := (x.num / x.den) % 2 ^ 32

/-- Source: `float scale = min((float)targetSize / width, (float)targetSize / height)`. -/
def scale (targetSize width height : Nat) : F32 :=
  F32.min ((F32.ofUINT targetSize).div (F32.ofUINT width))
    ((F32.ofUINT targetSize).div (F32.ofUINT height))

/-- Source: `UINT scaledWidth = (UINT)(width * scale)`. -/
def scaledWidth (targetSize width height : Nat) : Nat :=
  ((F32.ofUINT width).mul (scale targetSize width height)).toUINT

/-- Source: `UINT scaledHeight = (UINT)(height * scale)`. -/
def scaledHeight (targetSize width height : Nat) : Nat :=
  ((F32.ofUINT height).mul (scale targetSize width height)).toUINT

/-- Source: `UINT offsetX = (targetSize - scaledWidth) / 2`, an unsigned
32-bit subtraction. -/
def offsetX (targetSize width height : Nat) : Nat :=
  ((targetSize + 2 ^ 32 - scaledWidth targetSize width height) % 2 ^ 32) / 2

/-- Source: `UINT offsetY = (targetSize - scaledHeight) / 2`, an unsigned
32-bit subtraction. -/
def offsetY (targetSize width height : Nat) : Nat :=
  ((targetSize + 2 ^ 32 - scaledHeight targetSize width height) % 2 ^ 32) / 2

/-- The imaging library's `Rect`. -/
structure Rect where
  X : Nat
  Y : Nat
  Width : Nat
  Height : Nat
deriving DecidableEq, Repr

/-- Source: `Rect destRect(offsetX, offsetY, scaledWidth, scaledHeight)`. -/
def destRect (targetSize width height : Nat) : Rect :=
  { X := offsetX targetSize width height
    Y := offsetY targetSize width height
    Width := scaledWidth targetSize width height
    Height := scaledHeight targetSize width height }

/-! ## The platform and the file system -/

/-- A decoded image: what `Bitmap::FromFile` yields. -/
structure Bitmap where
  width : Nat
  height : Nat
  pixel : Nat → Nat → Pixel

/-- The files on disk: the content stored at each path, if any. -/
abbrev Files := WString → Option (List Nat)

/-- The calls `IconHelper` makes into the operating system, the C++ runtime
and the imaging library. -/
structure Platform where
  /-- The call `GetFullPathNameW`: `none` when it returns 0. -/
  GetFullPathNameW : WString → Option WString
  /-- The directory `GetTempPathW` stores in its buffer. -/
  GetTempPathW : WString
  /-- The value of `std::hash<std::wstring>`. -/
  hash : WString → Nat
  /-- The call `Bitmap::FromFile`: `none` when the pointer is null or the status
  is not `Ok`. -/
  BitmapFromFile : Files → WString → Option Bitmap
  /-- Whether `Graphics::FromImage` returns a non-null pointer for a canvas of
  the given size. -/
  GraphicsFromImage : Nat → Bool
  /-- The canvas after `Clear(Color(0, 0, 0, 0))` and `DrawImage(pngBitmap, destRect)`. -/
  DrawImage : Bitmap → Nat → Rect → Canvas
  /-- The colour bitmap of the icon `GetHICON` makes: `none` when `hIcon` is null. -/
  GetHICON : Canvas → Option Canvas
  /-- Whether `CreateFileW(icoPath, GENERIC_WRITE, 0, NULL, CREATE_ALWAYS, ...)`
  returns a valid handle. -/
  CreateFileW : Files → WString → Bool

/-- The state a call runs in: the files on disk and, as a record for the
proofs, the `(pngPath, icoPath)` arguments of every `ConvertPngToIco` call
made so far (most recent first). -/
structure World where
  files : Files
  conversions : List (WString × WString)

/-- Whether `GetFileAttributesW(path) != INVALID_FILE_ATTRIBUTES`. -/
def fileExists (files : Files) (path : WString) : Bool := (files path).isSome

/-- The files after `path` has been created and `bytes` written to it. -/
def writeFile (files : Files) (path : WString) (bytes : List Nat) : Files :=
  fun q => if q = path then some bytes else files q

/-- Source: `IconHelper::ConvertPngToIco`. The result is the returned `bool`
and the state after the call. -/
def ConvertPngToIco (P : Platform) (w : World) (pngPath icoPath : WString) : Bool × World :=
  let w1 : World := { w with conversions := (pngPath, icoPath) :: w.conversions }
  match P.BitmapFromFile w.files pngPath with
  | none => (false, w1)
  | some pngBitmap =>
    let width := pngBitmap.width
    let height := pngBitmap.height
    let targetSize := targetSize width height
    if P.GraphicsFromImage targetSize = false then (false, w1)
    else
      let iconBitmap := P.DrawImage pngBitmap targetSize (destRect targetSize width height)
      match P.GetHICON iconBitmap with
      | none => (false, w1)
      | some hbmColor =>
        if P.CreateFileW w.files icoPath = false then (false, w1)
        else
          let bits := GetDIBits hbmColor targetSize
          (true, { w1 with files := writeFile w.files icoPath (icoFileBytes targetSize bits) })

/-- The text `swprintf_s(hashStr, L"%zu", pathHash)` produces. -/
def hashStr (pathHash : Nat) : WString := (Nat.toDigits 10 pathHash).map Char.toNat

/-- Source: the cache location `tempPath + L"webwrap_icon_" + hashStr + L".ico"`
of an absolute source path. -/
def cachePath (P : Platform) (absPath : WString) : WString :=
  P.GetTempPathW ++ L "webwrap_icon_" ++ hashStr (P.hash absPath) ++ L ".ico"

/-- Source: `IconHelper::GetConvertedIconPath`. The result is the returned
path and the state after the call. -/
def GetConvertedIconPath (P : Platform) (w : World) (path : WString) : WString × World :=
  if path = [] then ([], w)
  else
    match P.GetFullPathNameW path with
    | none => (path, w)
    | some absPath =>
      if IsIcoFile absPath then (absPath, w)
      else if IsPngFile absPath then
        let icoPath := cachePath P absPath
        if fileExists w.files icoPath = false then
          (icoPath, (ConvertPngToIco P w absPath icoPath).2)
        else (icoPath, w)
      else (absPath, w)

/-! ## Readers used to state the byte-level properties -/

/-- The number whose little-endian bytes are the given list. -/
def leValue : List Nat → Nat
  | [] => 0
  | b :: rest => b + 256 * leValue rest

/-- The `count` bytes that start at `offset`. -/
def slice (bytes : List Nat) (offset count : Nat) : List Nat :=
  (bytes.drop offset).take count

/-- The unsigned 16-bit little-endian number stored at `offset`. -/
def readU16 (bytes : List Nat) (offset : Nat) : Nat := leValue (slice bytes offset 2)

/-- The unsigned 32-bit little-endian number stored at `offset`. -/
def readU32 (bytes : List Nat) (offset : Nat) : Nat := leValue (slice bytes offset 4)

/-- The byte stored at `offset` (0 past the end). -/
def readU8 (bytes : List Nat) (offset : Nat) : Nat := bytes.getD offset 0

/-- What a single-image ICO reader reports. -/
structure IcoInfo where
  count : Nat
  width : Nat
  height : Nat
  bitDepth : Nat
deriving DecidableEq, Repr

/-- The legacy convention for a directory entry's width and height byte: a
stored 0 stands for 256. -/
def decodeDimension (stored : Nat) : Nat := if stored = 0 then 256 else stored

/-- The reference single-image ICO reader of the specification: the image
count is the 16-bit number at offset 4, width and height are the bytes at
offsets 6 and 7 (a stored 0 read as 256), the bit depth is the 16-bit number
at offset 12. -/
def referenceReader (bytes : List Nat) : IcoInfo :=
  { count := readU16 bytes 4
    width := decodeDimension (readU8 bytes 6)
    height := decodeDimension (readU8 bytes 7)
    bitDepth := readU16 bytes 12 }

/-- The eleven fields stored in a 40-byte bitmap info header. -/
def readBitmapInfoHeader (bytes : List Nat) : BITMAPINFOHEADER :=
  { biSize := readU32 bytes 0
    biWidth := readU32 bytes 4
    biHeight := readU32 bytes 8
    biPlanes := readU16 bytes 12
    biBitCount := readU16 bytes 14
    biCompression := readU32 bytes 16
    biSizeImage := readU32 bytes 20
    biXPelsPerMeter := readU32 bytes 24
    biYPelsPerMeter := readU32 bytes 28
    biClrUsed := readU32 bytes 32
    biClrImportant := readU32 bytes 36 }

/-! ## Sample inputs -/

/-- A canvas whose pixels differ from place to place: red is the column,
blue is the row, green 7, opaque. -/
def sampleCanvas : Canvas :=
  fun y x => ⟨⟨x % 256, Nat.mod_lt x (by decide)⟩, 7, ⟨y % 256, Nat.mod_lt y (by decide)⟩, 255⟩

/-- A decoded 10×10 image. -/
def sampleBitmap : Bitmap :=
  { width := 10, height := 10, pixel := sampleCanvas }

/-- A platform for the examples: paths are already absolute, the temp
directory is `C:\Temp\`, the hash of a string is its length, a file decodes
(to `sampleBitmap`) exactly when it starts with the PNG signature bytes
137 80 78 71, and drawing, icon creation and file creation succeed. -/
def samplePlatform : Platform :=
  { GetFullPathNameW := fun path => some path
    GetTempPathW := L "C:\\Temp\\"
    hash := fun s => s.length
    BitmapFromFile := fun files path =>
      match files path with
      | some (137 :: 80 :: 78 :: 71 :: _) => some sampleBitmap
      | _ => none
    GraphicsFromImage := fun _ => true
    DrawImage := fun _ _ _ => sampleCanvas
    GetHICON := fun canvas => some canvas
    CreateFileW := fun _ _ => true }

/-- A disk holding one file, `C:\a.png`, with the given content, and no
conversion made so far. -/
def sampleWorld (content : List Nat) : World :=
  { files := fun q => if q = L "C:\\a.png" then some content else none
    conversions := [] }

/-! ## The second user of the cache, `LoadIconFromFile` -/

/-- Source: `IconHelper::LoadIconFromFile`. `LoadImageW files path` is the
handle the platform call `LoadImageW(nullptr, path, IMAGE_ICON, 32, 32,
LR_LOADFROMFILE)` returns (`none` for a null handle). The result is the
returned handle and the state after the call. -/
def LoadIconFromFile (P : Platform) (LoadImageW : Files → WString → Option Nat)
    (w : World) (path : WString) : Option Nat × World :=
  if path = [] then (none, w)
  else
    match P.GetFullPathNameW path with
    | none => (none, w)
    | some absPath =>
      if fileExists w.files absPath = false then (none, w)
      else if IsPngFile absPath then
        let tempPath := P.GetTempPathW
        let pathHash := P.hash absPath
        let icoPath := tempPath ++ L "webwrap_icon_" ++ hashStr pathHash ++ L ".ico"
        if fileExists w.files icoPath = false then
          let converted := ConvertPngToIco P w absPath icoPath
          if converted.1 = false then (none, converted.2)
          else (LoadImageW converted.2.files icoPath, converted.2)
        else (LoadImageW w.files icoPath, w)
      else if IsIcoFile absPath then (LoadImageW w.files absPath, w)
      else (none, w)

/-! ## URL validation (`main.cpp`) -/

/-- Whether `pat` is found in `s` at position 0 (`pat` is a leading part of `s`). -/
def startsWith : WString → WString → Bool
  | _, [] => true
  | [], _ :: _ => false
  | c :: s, p :: pat => c == p && startsWith s pat

/-- The search behind `std::wstring::find`: the lowest position `i ≥ start`
at which `pat` occurs, where `s` is the text from position `start` on. -/
def findFrom (pat : WString) : WString → Nat → Option Nat
  | [], start => if pat = [] then some start else none
  | c :: rest, start =>
    if startsWith (c :: rest) pat then some start else findFrom pat rest (start + 1)

/-- The call `s.find(pat)`: the position of the first occurrence of `pat` in
`s`, or `none` for `npos`. -/
def wfind (s pat : WString) : Option Nat := findFrom pat s 0

/-- Source: `isValidUrl` of `main.cpp`. -/
def isValidUrl (url : WString) : Bool :=
  if url = [] then false
  else if wfind url (L "http://") = some 0 ∨ wfind url (L "https://") = some 0 then true
  else if wfind url (L "file://") = some 0 then true
  else false

/-! ## Reference notions used to state the properties -/

/-- The smallest canonical size that is at least `n`, and 256 when there is none. -/
def smallestCanonicalAtLeast (n : Nat) : Nat :=
  (canonicalSizes.find? (fun c => decide (n ≤ c))).getD 256

/-- The exact value of a `float`. -/
def F32.val (x : F32) : ℚ := (x.num : ℚ) / (x.den : ℚ)

/-- Whether the pixel of row `y` and column `x` lies in the rectangle. -/
def Rect.contains (r : Rect) (y x : Nat) : Bool :=
  decide (r.X ≤ x ∧ x < r.X + r.Width ∧ r.Y ≤ y ∧ y < r.Y + r.Height)

/-! ## Basic facts -/

theorem targetSize_mem (width height : Nat) : targetSize width height ∈ canonicalSizes := by
  unfold targetSize canonicalSizes
  split_ifs <;> simp

theorem canonical_cases {S : Nat} (hS : S ∈ canonicalSizes) :
    S = 16 ∨ S = 32 ∨ S = 48 ∨ S = 64 ∨ S = 128 ∨ S = 256 := by
  simpa [canonicalSizes] using hS

theorem canonical_le {S : Nat} (hS : S ∈ canonicalSizes) : S ≤ 256 := by
  rcases canonical_cases hS with h | h | h | h | h | h <;> omega

theorem canonical_pos {S : Nat} (hS : S ∈ canonicalSizes) : 16 ≤ S := by
  rcases canonical_cases hS with h | h | h | h | h | h <;> omega

theorem u32le_length (v : Nat) : (u32le v).length = 4 := rfl

theorem u16le_length (v : Nat) : (u16le v).length = 2 := rfl

theorem iconDir_bytes_length : iconDir.bytes.length = 6 := rfl

theorem iconEntry_bytes_length (S : Nat) : (iconEntry S).bytes.length = 16 := rfl

theorem bmih_bytes_length (S : Nat) : (bmih S).bytes.length = 40 := rfl

theorem leValue_u16le (v : Nat) (h : v < 65536) : leValue (u16le v) = v := by
  simp only [u16le, leValue]
  omega

theorem leValue_u32le (v : Nat) (h : v < 4294967296) : leValue (u32le v) = v := by
  simp only [u32le, leValue]
  omega

/-! ## Rows of the pixel buffer -/

/-- In a concatenation of `n` blocks of `k` elements each, the `k` elements
from position `y * k` on are block `y`. -/
theorem flatMap_block {α : Type} (f : Nat → List α) (k : Nat) (hk : ∀ i, (f i).length = k) :
    ∀ n y, y < n → (((List.range n).flatMap f).drop (y * k)).take k = f y := by
  intro n
  induction n with
  | zero => intro y hy; omega
  | succ n ih =>
    intro y hy
    have hlen : ((List.range n).flatMap f).length = n * k := by
      clear ih hy
      induction n with
      | zero => simp
      | succ m ihm =>
        rw [List.range_succ, List.flatMap_append, List.length_append, ihm]
        simp [hk, Nat.succ_mul]
    rw [List.range_succ, List.flatMap_append]
    simp only [List.flatMap_cons, List.flatMap_nil, List.append_nil]
    rcases Nat.lt_succ_iff_lt_or_eq.mp hy with h | h
    · have h1 : y * k + k ≤ n * k := by
        have : (y + 1) * k ≤ n * k := Nat.mul_le_mul_right k h
        rw [Nat.succ_mul] at this
        exact this
      rw [List.drop_append_of_le_length (by rw [hlen]; omega)]
      rw [List.take_append_of_le_length (by rw [List.length_drop, hlen]; omega)]
      exact ih y h
    · subst h
      rw [← hlen, List.drop_left]
      rw [List.take_of_length_le (by rw [hk])]

theorem flatMap_block_length {α : Type} (f : Nat → List α) (k : Nat)
    (hk : ∀ i, (f i).length = k) (n : Nat) : ((List.range n).flatMap f).length = n * k := by
  induction n with
  | zero => simp
  | succ m ihm =>
    rw [List.range_succ, List.flatMap_append, List.length_append, ihm]
    simp [hk, Nat.succ_mul]

theorem pixelBytes_length (p : Pixel) : (pixelBytes p).length = 4 := rfl

theorem dibRow_length (canvas : Canvas) (S y : Nat) : (dibRow canvas S y).length = S * 4 :=
  flatMap_block_length (fun x => pixelBytes (canvas y x)) 4 (fun _ => rfl) S

theorem GetDIBits_length (canvas : Canvas) (S : Nat) :
    (GetDIBits canvas S).length = S * (S * 4) :=
  flatMap_block_length (fun y => dibRow canvas S y) (S * 4) (fun y => dibRow_length canvas S y) S

/-- For a canonical size the 32-bit products of the row loop do not wrap, and
the row written for `y` is row `y` of the canvas. -/
theorem writeRow_GetDIBits (canvas : Canvas) {S : Nat} (hS : S ∈ canonicalSizes) {y : Nat}
    (hy : y < S) : writeRow (GetDIBits canvas S) S y = dibRow canvas S y := by
  have hle := canonical_le hS
  have h1 : (y * S * 4) % 2 ^ 32 = y * (S * 4) := by
    have : y * S ≤ 256 * 256 := Nat.mul_le_mul (by omega) hle
    rw [Nat.mul_assoc] at *
    apply Nat.mod_eq_of_lt
    have : y * (S * 4) ≤ 256 * (256 * 4) := Nat.mul_le_mul (by omega) (by omega)
    omega
  have h2 : (S * 4) % 2 ^ 32 = S * 4 := Nat.mod_eq_of_lt (by omega)
  unfold writeRow
  rw [h1, h2]
  exact flatMap_block (fun y => dibRow canvas S y) (S * 4) (fun y => dibRow_length canvas S y) S y hy

/-- The row loop written as a concatenation: output row `i` is the row the
loop writes for `y = n - 1 - i`. -/
theorem writeRows_eq_flatMap (bits : List Nat) (S : Nat) :
    ∀ n, writeRows bits S n = (List.range n).flatMap (fun i => writeRow bits S (n - 1 - i)) := by
  intro n
  induction n with
  | zero => simp [writeRows]
  | succ n ih =>
    rw [writeRows, ih, List.range_succ_eq_map, List.flatMap_cons, List.flatMap_map]
    simp only [Nat.add_sub_cancel, Nat.sub_zero]
    congr 1
    apply List.flatMap_congr
    intro i _
    congr 1
    omega

theorem writeRows_GetDIBits (canvas : Canvas) {S : Nat} (hS : S ∈ canonicalSizes) :
    writeRows (GetDIBits canvas S) S S
      = (List.range S).flatMap (fun i => dibRow canvas S (S - 1 - i)) := by
  rw [writeRows_eq_flatMap]
  apply List.flatMap_congr
  intro i hi
  have hi2 : i < S := List.mem_range.mp hi
  exact writeRow_GetDIBits canvas hS (by omega)

/-! ## The icon encoder -/

/-- The 62 bytes of the three headers precede the pixel rows. -/
theorem icoFileBytes_split (S : Nat) (bits : List Nat) :
    icoFileBytes S bits
      = (iconDir.bytes ++ (iconEntry S).bytes ++ (bmih S).bytes) ++ writeRows bits S S ∧
    (iconDir.bytes ++ (iconEntry S).bytes ++ (bmih S).bytes).length = 62 :=
  ⟨rfl, rfl⟩

/-- C1: for every canonical size S and every S×S canvas, the byte stream that
`ConvertPngToIco` writes (file header, directory entry, bitmap header, pixel
rows) has length exactly 6 + 16 + 40 + S*S*4. -/
theorem ico_stream_length (S : Nat) (hS : S ∈ canonicalSizes) (canvas : Canvas) :
    (icoFileBytes S (GetDIBits canvas S)).length = 6 + 16 + 40 + S * S * 4 := by
  rw [(icoFileBytes_split S _).1, List.length_append, (icoFileBytes_split S (GetDIBits canvas S)).2,
    writeRows_GetDIBits canvas hS,
    flatMap_block_length (fun i => dibRow canvas S (S - 1 - i)) (S * 4)
      (fun i => dibRow_length canvas S _) S]
  ring

theorem ico_stream_length_witness :
    16 ∈ canonicalSizes ∧
    (icoFileBytes 16 (GetDIBits (fun _ _ => ⟨0, 0, 0, 255⟩) 16)).length
      = 6 + 16 + 40 + 16 * 16 * 4 :=
  ⟨by decide, ico_stream_length 16 (by decide) _⟩

/-- C3: for every conversion with target size S, the directory entry at bytes
6..21 of the output holds the width byte S mod 256 (256 is stored as 0), the
same height byte, colour count 0, reserved 0, planes 1, bit count 32,
bytesInRes = 40 + S*S*4 and imageOffset = 22, all little-endian. -/
theorem directory_entry_fields (S : Nat) (hS : S ∈ canonicalSizes) (bits : List Nat) :
    slice (icoFileBytes S bits) 6 16
        = [S % 256, S % 256, 0, 0] ++ u16le 1 ++ u16le 32 ++ u32le (40 + S * S * 4) ++ u32le 22 ∧
    readU8 (icoFileBytes S bits) 6 = S % 256 ∧
    readU8 (icoFileBytes S bits) 7 = S % 256 ∧
    (S = 256 → readU8 (icoFileBytes S bits) 6 = 0 ∧ readU8 (icoFileBytes S bits) 7 = 0) ∧
    readU8 (icoFileBytes S bits) 8 = 0 ∧
    readU8 (icoFileBytes S bits) 9 = 0 ∧
    readU16 (icoFileBytes S bits) 10 = 1 ∧
    readU16 (icoFileBytes S bits) 12 = 32 ∧
    readU32 (icoFileBytes S bits) 14 = 40 + S * S * 4 ∧
    readU32 (icoFileBytes S bits) 18 = 22 := by
  rcases canonical_cases hS with h | h | h | h | h | h <;> subst h <;>
    exact ⟨rfl, rfl, rfl, by intro h; first | exact ⟨rfl, rfl⟩ | omega, rfl, rfl, rfl, rfl, rfl, rfl⟩

theorem directory_entry_fields_witness :
    256 ∈ canonicalSizes ∧ readU8 (icoFileBytes 256 []) 6 = 0 ∧
    readU32 (icoFileBytes 256 []) 14 = 40 + 256 * 256 * 4 :=
  ⟨by decide, ((directory_entry_fields 256 (by decide) []).2.2.2.1 rfl).1,
    (directory_entry_fields 256 (by decide) []).2.2.2.2.2.2.2.2.1⟩

/-- C4: round trip. For every canonical size S, the reference single-image
ICO reader applied to the encoder's bytes reports count 1, width = height = S
and bit depth 32. -/
theorem reference_reader_roundtrip (S : Nat) (hS : S ∈ canonicalSizes) (bits : List Nat) :
    referenceReader (icoFileBytes S bits) = { count := 1, width := S, height := S, bitDepth := 32 } := by
  rcases canonical_cases hS with h | h | h | h | h | h <;> subst h <;> rfl

theorem reference_reader_roundtrip_witness :
    256 ∈ canonicalSizes ∧
    referenceReader (icoFileBytes 256 (GetDIBits (fun _ _ => ⟨0, 0, 0, 255⟩) 256))
      = { count := 1, width := 256, height := 256, bitDepth := 32 } :=
  ⟨by decide, reference_reader_roundtrip 256 (by decide) _⟩

/-- C5: for every conversion, the first 6 bytes of the output are the
little-endian file header reserved = 0, type = 1, count = 1, the bytes
00 00 01 00 01 00. -/
theorem file_header_bytes (S : Nat) (bits : List Nat) :
    (icoFileBytes S bits).take 6 = [0, 0, 1, 0, 1, 0] ∧
    readU16 (icoFileBytes S bits) 0 = 0 ∧
    readU16 (icoFileBytes S bits) 2 = 1 ∧
    readU16 (icoFileBytes S bits) 4 = 1 :=
  ⟨rfl, rfl, rfl, rfl⟩

/-- C6: for every conversion with target size S, bytes 22..61 of the output
are a 40-byte bitmap info header with biSize = 40, biWidth = S, biHeight = 2*S,
biPlanes = 1, biBitCount = 32, biCompression = 0 and every other field zero. -/
theorem bitmap_header_fields (S : Nat) (hS : S ∈ canonicalSizes) (bits : List Nat) :
    (slice (icoFileBytes S bits) 22 40).length = 40 ∧
    readBitmapInfoHeader (slice (icoFileBytes S bits) 22 40)
      = { biSize := 40, biWidth := S, biHeight := 2 * S, biPlanes := 1, biBitCount := 32,
          biCompression := 0, biSizeImage := 0, biXPelsPerMeter := 0, biYPelsPerMeter := 0,
          biClrUsed := 0, biClrImportant := 0 } ∧
    slice (icoFileBytes S bits) 22 40
      = u32le 40 ++ u32le S ++ u32le (2 * S) ++ u16le 1 ++ u16le 32 ++ List.replicate 24 0 := by
  rcases canonical_cases hS with h | h | h | h | h | h <;> subst h <;> exact ⟨rfl, rfl, rfl⟩

theorem bitmap_header_fields_witness :
    48 ∈ canonicalSizes ∧
    readBitmapInfoHeader (slice (icoFileBytes 48 []) 22 40)
      = { biSize := 40, biWidth := 48, biHeight := 2 * 48, biPlanes := 1, biBitCount := 32,
          biCompression := 0, biSizeImage := 0, biXPelsPerMeter := 0, biYPelsPerMeter := 0,
          biClrUsed := 0, biClrImportant := 0 } :=
  ⟨by decide, (bitmap_header_fields 48 (by decide) []).2.1⟩

theorem slice_append_right {α : Type} (pre rest : List α) (n off k : Nat)
    (hpre : pre.length = n) : ((pre ++ rest).drop (n + off)).take k = (rest.drop off).take k := by
  subst hpre
  rw [← List.drop_drop, List.drop_left]

/-- Four bytes of row `y` of the buffer from position `4 * x` on are pixel
`x` of that row, in the order blue, green, red, alpha. -/
theorem dibRow_pixel (canvas : Canvas) (S y x : Nat) (hx : x < S) :
    ((dibRow canvas S y).drop (x * 4)).take 4 = pixelBytes (canvas y x) :=
  flatMap_block (fun x => pixelBytes (canvas y x)) 4 (fun _ => rfl) S x hx

theorem take_drop_take {α : Type} (l : List α) (a b k : Nat) (h : a + k ≤ b) :
    ((l.take b).drop a).take k = (l.drop a).take k := by
  rw [List.drop_take, List.take_take, Nat.min_eq_left (by omega)]

/-- C7: for every target size S and every S×S canvas, the pixel payload
starts at byte offset 62 and consists of exactly S rows of 4*S bytes with no
padding; the i-th written row is canvas row S-1-i (output row 0 is the
canvas's last row), and each pixel is stored as blue, green, red, alpha. -/
theorem pixel_rows_bottom_up (S : Nat) (hS : S ∈ canonicalSizes) (canvas : Canvas) :
    ((icoFileBytes S (GetDIBits canvas S)).drop 62).length = S * (4 * S) ∧
    (∀ i, i < S →
      slice (icoFileBytes S (GetDIBits canvas S)) (62 + i * (4 * S)) (4 * S)
        = dibRow canvas S (S - 1 - i)) ∧
    (∀ i x, i < S → x < S →
      slice (icoFileBytes S (GetDIBits canvas S)) (62 + i * (4 * S) + 4 * x) 4
        = [(canvas (S - 1 - i) x).b.val, (canvas (S - 1 - i) x).g.val,
           (canvas (S - 1 - i) x).r.val, (canvas (S - 1 - i) x).a.val]) := by
  have hsplit := icoFileBytes_split S (GetDIBits canvas S)
  have hrows := writeRows_GetDIBits canvas hS
  have hk : ∀ i, (dibRow canvas S (S - 1 - i)).length = S * 4 :=
    fun i => dibRow_length canvas S _
  have hrow : ∀ i, i < S →
      slice (icoFileBytes S (GetDIBits canvas S)) (62 + i * (4 * S)) (4 * S)
        = dibRow canvas S (S - 1 - i) := by
    intro i hi
    unfold slice
    rw [hsplit.1, slice_append_right _ _ 62 _ _ hsplit.2, hrows, Nat.mul_comm 4 S]
    exact flatMap_block (fun i => dibRow canvas S (S - 1 - i)) (S * 4) hk S i hi
  refine ⟨?_, hrow, ?_⟩
  · rw [hsplit.1, ← hsplit.2, List.drop_left, hrows,
      flatMap_block_length (fun i => dibRow canvas S (S - 1 - i)) (S * 4) hk S, Nat.mul_comm 4 S]
  · intro i x hi hx
    have h1 := hrow i hi
    have h2 := dibRow_pixel canvas S (S - 1 - i) x hx
    rw [← h1] at h2
    unfold slice at h2 ⊢
    rw [take_drop_take _ _ _ _ (by omega), List.drop_drop] at h2
    rw [Nat.mul_comm 4 x]
    exact h2

theorem pixel_rows_bottom_up_witness :
    16 ∈ canonicalSizes ∧
    slice (icoFileBytes 16 (GetDIBits sampleCanvas 16)) 62 4 = [15, 7, 0, 255] ∧
    slice (icoFileBytes 16 (GetDIBits sampleCanvas 16)) (62 + 15 * 64 + 4 * 3) 4 = [0, 7, 3, 255] :=
  ⟨by decide, (pixel_rows_bottom_up 16 (by decide) sampleCanvas).2.2 0 0 (by decide) (by decide),
    (pixel_rows_bottom_up 16 (by decide) sampleCanvas).2.2 15 3 (by decide) (by decide)⟩

/-! ## Target size selection -/

/-- C2 (as stated, refuted): a 129×100 image has largest dimension 129 > 128,
yet the selected target size is 128, which is below that dimension. -/
theorem target_size_largest_dimension_counterexample :
    1 ≤ 129 ∧ 1 ≤ 100 ∧ 128 < max 129 100 ∧
    targetSize 129 100 = 128 ∧ targetSize 129 100 < max 129 100 := by
  decide

/-- C2 (amended): the target size is the smallest canonical size that is at
least the smaller of width and height, and 256 when the smaller dimension
exceeds 128; a 128×128 image selects 128 and a 129×100 image selects 128. -/
theorem target_size_smallest_dimension (width height : Nat) :
    targetSize width height ∈ canonicalSizes ∧
    (min width height ≤ 128 →
      min width height ≤ targetSize width height ∧
      ∀ c ∈ canonicalSizes, min width height ≤ c → targetSize width height ≤ c) ∧
    (128 < min width height → targetSize width height = 256) ∧
    targetSize 128 128 = 128 ∧ targetSize 129 100 = 128 := by
  refine ⟨targetSize_mem width height, ?_, ?_, by decide, by decide⟩
  · intro hmin
    refine ⟨?_, ?_⟩
    · unfold targetSize
      split_ifs <;> omega
    · intro c hc hle
      rcases canonical_cases hc with h | h | h | h | h | h <;> subst h <;>
        unfold targetSize <;> split_ifs <;> omega
  · intro hmin
    unfold targetSize
    split_ifs <;> omega

/-! ## Format sniffer -/

theorem towlower_eq_special (c : Nat) :
    (towlower c = 92 ↔ c = 92) ∧ (towlower c = 32 ↔ c = 32) ∧ (towlower c = 46 ↔ c = 46) := by
  unfold towlower
  split_ifs <;> omega

/-- Lower-casing commutes with the extension scan. -/
theorem findExtension_map_towlower (path : WString) :
    ∀ lastpoint : Option WString,
      (findExtension path lastpoint).map towlower
        = findExtension (path.map towlower) (lastpoint.map (List.map towlower)) := by
  induction path with
  | nil => intro lastpoint; cases lastpoint <;> simp [findExtension]
  | cons c rest ih =>
    intro lastpoint
    obtain ⟨h92, h32, h46⟩ := towlower_eq_special c
    simp only [findExtension, List.map_cons, h92, h32, h46]
    split_ifs
    · simpa using ih none
    · simpa using ih (some (c :: rest))
    · exact ih lastpoint

theorem lowerExt_eq (path : WString) :
    lowerExt path = PathFindExtensionW (path.map towlower) := by
  unfold lowerExt PathFindExtensionW
  simpa using findExtension_map_towlower path none

/-- A tail without dot, backslash or space leaves the last dot seen in place. -/
theorem findExtension_clean (e : WString) (he : ∀ c ∈ e, c ≠ 46 ∧ c ≠ 92 ∧ c ≠ 32) :
    ∀ lastpoint : Option WString, findExtension e lastpoint = lastpoint.getD [] := by
  induction e with
  | nil => intro lastpoint; rfl
  | cons c rest ih =>
    intro lastpoint
    have hc := he c (List.mem_cons_self c rest)
    have hrest : ∀ c ∈ rest, c ≠ 46 ∧ c ≠ 92 ∧ c ≠ 32 :=
      fun d hd => he d (List.mem_cons_of_mem c hd)
    simp only [findExtension, hc.1, hc.2.1, hc.2.2, or_self, if_false]
    exact ih hrest lastpoint

theorem findExtension_append_dot (stem e : WString) (he : ∀ c ∈ e, c ≠ 46 ∧ c ≠ 92 ∧ c ≠ 32) :
    ∀ lastpoint : Option WString, findExtension (stem ++ 46 :: e) lastpoint = 46 :: e := by
  induction stem with
  | nil =>
    intro lastpoint
    simp [findExtension, findExtension_clean e he]
  | cons c rest ih =>
    intro lastpoint
    simp only [List.cons_append, findExtension]
    split_ifs
    · exact ih none
    · exact ih _
    · exact ih lastpoint

/-- C8: classification depends only on the lower-cased extension and is
case-insensitive: `IsPngFile` holds iff the lower-cased extension is ".png",
`IsIcoFile` iff it is ".ico"; two paths that differ only in letter case get
the same result; the extension of `stem.e` is `.e`; and a path with extension
".bmp" is neither PNG nor ICO. -/
theorem sniffer_extension_case_insensitive :
    (∀ path, (IsPngFile path = true ↔ lowerExt path = L ".png") ∧
             (IsIcoFile path = true ↔ lowerExt path = L ".ico")) ∧
    (∀ path path', path.map towlower = path'.map towlower →
        IsPngFile path = IsPngFile path' ∧ IsIcoFile path = IsIcoFile path') ∧
    (∀ stem e, (∀ c ∈ e, c ≠ 46 ∧ c ≠ 92 ∧ c ≠ 32) →
        PathFindExtensionW (stem ++ 46 :: e) = 46 :: e ∧
        ∀ e', e'.map towlower = e.map towlower →
          IsPngFile (stem ++ 46 :: e') = IsPngFile (stem ++ 46 :: e) ∧
          IsIcoFile (stem ++ 46 :: e') = IsIcoFile (stem ++ 46 :: e)) ∧
    (∀ path, lowerExt path = L ".bmp" → IsPngFile path = false ∧ IsIcoFile path = false) := by
  refine ⟨?_, ?_, ?_, ?_⟩
  · intro path
    simp [IsPngFile, IsIcoFile]
  · intro path path' h
    simp only [IsPngFile, IsIcoFile, lowerExt_eq, h, and_self]
  · intro stem e he
    refine ⟨findExtension_append_dot stem e he none, ?_⟩
    intro e' he'
    have hcase : e'.map towlower = e.map towlower := he'
    have hstem : (stem ++ 46 :: e').map towlower = (stem ++ 46 :: e).map towlower := by
      simp [hcase]
    simp only [IsPngFile, IsIcoFile, lowerExt_eq, hstem, and_self]
  · intro path h
    simp only [IsPngFile, IsIcoFile, h]
    decide

theorem sniffer_extension_case_insensitive_witness :
    IsPngFile (L "C:\\My Icons\\app.v2.PnG") = IsPngFile (L "c:\\my icons\\app.v2.png") ∧
    IsPngFile (L "c:\\my icons\\app.v2.png") = true ∧
    PathFindExtensionW (L "C:\\img\\logo.BMP") = L ".BMP" ∧
    IsPngFile (L "C:\\img\\logo.BMP") = false ∧ IsIcoFile (L "C:\\img\\logo.BMP") = false :=
  ⟨(sniffer_extension_case_insensitive.2.1 _ _ (by decide)).1, by decide,
    (sniffer_extension_case_insensitive.2.2.1 (L "C:\\img\\logo") (L "BMP") (by decide)).1,
    (sniffer_extension_case_insensitive.2.2.2 _ (by decide)).1,
    (sniffer_extension_case_insensitive.2.2.2 _ (by decide)).2⟩

/-! ## The conversion cache -/

theorem sniffer_exclusive (path : WString) (h : IsPngFile path = true) :
    IsIcoFile path = false := by
  simp only [IsPngFile, beq_iff_eq] at h
  simp only [IsIcoFile, h]
  decide

/-- The path `GetConvertedIconPath` returns does not depend on the state. -/
theorem GetConvertedIconPath_path (P : Platform) (w w' : World) (path : WString) :
    (GetConvertedIconPath P w path).1 = (GetConvertedIconPath P w' path).1 := by
  unfold GetConvertedIconPath
  split_ifs <;> try rfl
  cases P.GetFullPathNameW path with
  | none => rfl
  | some absPath =>
    simp only
    split_ifs <;> rfl

/-- A conversion that reports success has left a file at `icoPath`. -/
theorem ConvertPngToIco_true_exists (P : Platform) (w : World) (pngPath icoPath : WString)
    (h : (ConvertPngToIco P w pngPath icoPath).1 = true) :
    fileExists (ConvertPngToIco P w pngPath icoPath).2.files icoPath = true := by
  cases hb : P.BitmapFromFile w.files pngPath with
  | none => simp [ConvertPngToIco, hb] at h
  | some bmp =>
    cases hg : P.GraphicsFromImage (targetSize bmp.width bmp.height) with
    | false => simp [ConvertPngToIco, hb, hg] at h
    | true =>
      cases hi : P.GetHICON (P.DrawImage bmp (targetSize bmp.width bmp.height)
          (destRect (targetSize bmp.width bmp.height) bmp.width bmp.height)) with
      | none => simp [ConvertPngToIco, hb, hg, hi] at h
      | some c =>
        cases hc : P.CreateFileW w.files icoPath with
        | false => simp [ConvertPngToIco, hb, hg, hi, hc] at h
        | true => simp [ConvertPngToIco, hb, hg, hi, hc, fileExists, writeFile]

/-- A conversion that reports failure has left every file as it was. -/
theorem ConvertPngToIco_false_files (P : Platform) (w : World) (pngPath icoPath : WString)
    (h : (ConvertPngToIco P w pngPath icoPath).1 = false) :
    (ConvertPngToIco P w pngPath icoPath).2.files = w.files := by
  cases hb : P.BitmapFromFile w.files pngPath with
  | none => simp [ConvertPngToIco, hb]
  | some bmp =>
    cases hg : P.GraphicsFromImage (targetSize bmp.width bmp.height) with
    | false => simp [ConvertPngToIco, hb, hg]
    | true =>
      cases hi : P.GetHICON (P.DrawImage bmp (targetSize bmp.width bmp.height)
          (destRect (targetSize bmp.width bmp.height) bmp.width bmp.height)) with
      | none => simp [ConvertPngToIco, hb, hg, hi]
      | some c =>
        cases hc : P.CreateFileW w.files icoPath with
        | false => simp [ConvertPngToIco, hb, hg, hi, hc]
        | true => simp [ConvertPngToIco, hb, hg, hi, hc] at h

/-- A conversion that reports success has stored at `icoPath` exactly the
encoder's byte stream for the target size of the decoded image. -/
theorem ConvertPngToIco_true_content (P : Platform) (w : World) (pngPath icoPath : WString)
    (h : (ConvertPngToIco P w pngPath icoPath).1 = true) :
    ∃ pngBitmap hbmColor,
      P.BitmapFromFile w.files pngPath = some pngBitmap ∧
      (ConvertPngToIco P w pngPath icoPath).2.files icoPath
        = some (icoFileBytes (targetSize pngBitmap.width pngBitmap.height)
            (GetDIBits hbmColor (targetSize pngBitmap.width pngBitmap.height))) := by
  cases hb : P.BitmapFromFile w.files pngPath with
  | none => simp [ConvertPngToIco, hb] at h
  | some bmp =>
    cases hg : P.GraphicsFromImage (targetSize bmp.width bmp.height) with
    | false => simp [ConvertPngToIco, hb, hg] at h
    | true =>
      cases hi : P.GetHICON (P.DrawImage bmp (targetSize bmp.width bmp.height)
          (destRect (targetSize bmp.width bmp.height) bmp.width bmp.height)) with
      | none => simp [ConvertPngToIco, hb, hg, hi] at h
      | some c =>
        cases hc : P.CreateFileW w.files icoPath with
        | false => simp [ConvertPngToIco, hb, hg, hi, hc] at h
        | true =>
          exact ⟨bmp, c, rfl, by simp [ConvertPngToIco, hb, hg, hi, hc, writeFile]⟩

/-- A cache hit: the cached path is returned and nothing happens. -/
theorem GetConvertedIconPath_hit (P : Platform) (w : World) (path absPath : WString)
    (hne : path ≠ []) (habs : P.GetFullPathNameW path = some absPath)
    (hpng : IsPngFile absPath = true)
    (hex : fileExists w.files (cachePath P absPath) = true) :
    GetConvertedIconPath P w path = (cachePath P absPath, w) := by
  unfold GetConvertedIconPath
  simp [hne, habs, hpng, sniffer_exclusive absPath hpng, hex]

/-- A cache miss: the conversion runs once and the cache path is returned. -/
theorem GetConvertedIconPath_miss (P : Platform) (w : World) (path absPath : WString)
    (hne : path ≠ []) (habs : P.GetFullPathNameW path = some absPath)
    (hpng : IsPngFile absPath = true)
    (hex : fileExists w.files (cachePath P absPath) = false) :
    GetConvertedIconPath P w path
      = (cachePath P absPath, (ConvertPngToIco P w absPath (cachePath P absPath)).2) := by
  unfold GetConvertedIconPath
  simp [hne, habs, hpng, sniffer_exclusive absPath hpng, hex]

/-- C10 (as stated, refuted): for the path `C:\img\logo.bmp`, whose extension
is neither .png nor .ico, `GetConvertedIconPath` returns that very path, a
non-empty string, and not the empty string it returns when it has no answer. -/
theorem unsupported_path_counterexample :
    IsPngFile (L "C:\\img\\logo.bmp") = false ∧ IsIcoFile (L "C:\\img\\logo.bmp") = false ∧
    (GetConvertedIconPath samplePlatform (sampleWorld [0]) (L "C:\\img\\logo.bmp")).1
      = L "C:\\img\\logo.bmp" ∧
    (GetConvertedIconPath samplePlatform (sampleWorld [0]) (L "C:\\img\\logo.bmp")).1 ≠ [] := by
  decide

/-- C10 (amended): for every non-empty path whose absolute path has an
extension that is neither .png nor .ico, `GetConvertedIconPath` reports no
error: it returns the absolute path itself, invokes no conversion and leaves
the file system unchanged (no cache file is created). -/
theorem unsupported_path_returned (P : Platform) (w : World) (path absPath : WString)
    (hne : path ≠ []) (habs : P.GetFullPathNameW path = some absPath)
    (hpng : IsPngFile absPath = false) (hico : IsIcoFile absPath = false) :
    GetConvertedIconPath P w path = (absPath, w) := by
  unfold GetConvertedIconPath
  simp [hne, habs, hpng, hico]

theorem unsupported_path_returned_witness :
    IsPngFile (L "C:\\img\\logo.bmp") = false ∧ IsIcoFile (L "C:\\img\\logo.bmp") = false ∧
    GetConvertedIconPath samplePlatform (sampleWorld [0]) (L "C:\\img\\logo.bmp")
      = (L "C:\\img\\logo.bmp", sampleWorld [0]) :=
  ⟨by decide, by decide,
    unsupported_path_returned samplePlatform (sampleWorld [0]) (L "C:\\img\\logo.bmp")
      (L "C:\\img\\logo.bmp") (by decide) rfl (by decide) (by decide)⟩

/-! ## What `GetConvertedIconPath` returns -/

/-- C11 (as stated, refuted): `C:\a.png` exists but does not decode and
nothing is cached; `ConvertPngToIco` returns false, yet `GetConvertedIconPath`
returns the cache path `C:\Temp\webwrap_icon_8.ico`, at which no file exists
after the call. -/
theorem failed_conversion_counterexample :
    IsPngFile (L "C:\\a.png") = true ∧
    fileExists (sampleWorld [0]).files (cachePath samplePlatform (L "C:\\a.png")) = false ∧
    (ConvertPngToIco samplePlatform (sampleWorld [0]) (L "C:\\a.png")
      (cachePath samplePlatform (L "C:\\a.png"))).1 = false ∧
    (GetConvertedIconPath samplePlatform (sampleWorld [0]) (L "C:\\a.png")).1
      = L "C:\\Temp\\webwrap_icon_8.ico" ∧
    fileExists (GetConvertedIconPath samplePlatform (sampleWorld [0]) (L "C:\\a.png")).2.files
      (GetConvertedIconPath samplePlatform (sampleWorld [0]) (L "C:\\a.png")).1 = false := by
  decide

/-- C11 (amended): for every PNG source path `GetConvertedIconPath` returns
the cache path and reports no error; a file exists at that path after the
call exactly when it existed before or the conversion succeeded; when the
cache file is absent and the conversion fails, every file is left as it was
and the returned path names no file. -/
theorem converted_path_exists_iff (P : Platform) (w : World) (path absPath : WString)
    (hne : path ≠ []) (habs : P.GetFullPathNameW path = some absPath)
    (hpng : IsPngFile absPath = true) :
    (GetConvertedIconPath P w path).1 = cachePath P absPath ∧
    (fileExists (GetConvertedIconPath P w path).2.files (cachePath P absPath) = true ↔
      (fileExists w.files (cachePath P absPath) = true ∨
        (ConvertPngToIco P w absPath (cachePath P absPath)).1 = true)) ∧
    (fileExists w.files (cachePath P absPath) = false →
      (ConvertPngToIco P w absPath (cachePath P absPath)).1 = false →
      (GetConvertedIconPath P w path).2.files = w.files ∧
      fileExists (GetConvertedIconPath P w path).2.files (GetConvertedIconPath P w path).1
        = false) := by
  cases hex : fileExists w.files (cachePath P absPath) with
  | true =>
    rw [GetConvertedIconPath_hit P w path absPath hne habs hpng hex]
    simp [hex]
  | false =>
    rw [GetConvertedIconPath_miss P w path absPath hne habs hpng hex]
    refine ⟨rfl, ?_, ?_⟩
    · constructor
      · intro h
        cases hc : (ConvertPngToIco P w absPath (cachePath P absPath)).1 with
        | true => exact Or.inr rfl
        | false =>
          rw [ConvertPngToIco_false_files P w absPath (cachePath P absPath) hc, hex] at h
          cases h
      · rintro (h | h)
        · cases h
        · exact ConvertPngToIco_true_exists P w absPath (cachePath P absPath) h
    · intro _ hc
      have hfiles := ConvertPngToIco_false_files P w absPath (cachePath P absPath) hc
      refine ⟨hfiles, ?_⟩
      simp only
      rw [hfiles, hex]

theorem converted_path_exists_iff_witness :
    IsPngFile (L "C:\\a.png") = true ∧
    (GetConvertedIconPath samplePlatform (sampleWorld [0]) (L "C:\\a.png")).2.files
      = (sampleWorld [0]).files ∧
    fileExists (GetConvertedIconPath samplePlatform (sampleWorld [0]) (L "C:\\a.png")).2.files
      (GetConvertedIconPath samplePlatform (sampleWorld [0]) (L "C:\\a.png")).1 = false :=
  ⟨by decide,
    (converted_path_exists_iff samplePlatform (sampleWorld [0]) (L "C:\\a.png") (L "C:\\a.png")
      (by decide) rfl (by decide)).2.2 (by decide) (by decide)⟩

/-- C12: pass-through. For every non-empty path whose absolute path has the
extension .ico in any letter case, `GetConvertedIconPath` returns exactly that
absolute path and leaves the state unchanged: no conversion is invoked and no
file is created. -/
theorem ico_pass_through (P : Platform) (w : World) (path absPath : WString)
    (hne : path ≠ []) (habs : P.GetFullPathNameW path = some absPath)
    (hico : (PathFindExtensionW absPath).map towlower = L ".ico") :
    GetConvertedIconPath P w path = (absPath, w) := by
  have h : IsIcoFile absPath = true := by
    simp only [IsIcoFile, lowerExt, hico]
    decide
  unfold GetConvertedIconPath
  simp [hne, habs, h]

theorem ico_pass_through_witness :
    PathFindExtensionW (L "C:\\icons\\App.ICO") = L ".ICO" ∧
    GetConvertedIconPath samplePlatform (sampleWorld [0]) (L "C:\\icons\\App.ICO")
      = (L "C:\\icons\\App.ICO", sampleWorld [0]) :=
  ⟨by decide,
    ico_pass_through samplePlatform (sampleWorld [0]) (L "C:\\icons\\App.ICO")
      (L "C:\\icons\\App.ICO") (by decide) rfl (by decide)⟩

/-- C13: for every absolute PNG path the cache location is the temp directory
followed by "webwrap_icon_", the decimal digits of the hash of the absolute
path and ".ico"; it does not depend on the files on disk; and
`LoadIconFromFile` uses the identical location: on a cache hit it loads from
it, on a miss it converts to it (ending in the same state as
`GetConvertedIconPath`) and then loads from it. -/
theorem cache_location_shared (P : Platform) (LoadImageW : Files → WString → Option Nat)
    (w : World) (path absPath : WString)
    (hne : path ≠ []) (habs : P.GetFullPathNameW path = some absPath)
    (hpng : IsPngFile absPath = true) :
    (GetConvertedIconPath P w path).1
      = P.GetTempPathW ++ L "webwrap_icon_" ++ hashStr (P.hash absPath) ++ L ".ico" ∧
    (∀ w' : World, (GetConvertedIconPath P w' path).1 = (GetConvertedIconPath P w path).1) ∧
    (fileExists w.files absPath = true →
      (fileExists w.files (GetConvertedIconPath P w path).1 = true →
        LoadIconFromFile P LoadImageW w path
          = (LoadImageW w.files (GetConvertedIconPath P w path).1, w)) ∧
      (fileExists w.files (GetConvertedIconPath P w path).1 = false →
        (LoadIconFromFile P LoadImageW w path).2
          = (ConvertPngToIco P w absPath (GetConvertedIconPath P w path).1).2 ∧
        (LoadIconFromFile P LoadImageW w path).2 = (GetConvertedIconPath P w path).2 ∧
        ((ConvertPngToIco P w absPath (GetConvertedIconPath P w path).1).1 = true →
          (LoadIconFromFile P LoadImageW w path).1
            = LoadImageW (GetConvertedIconPath P w path).2.files
                (GetConvertedIconPath P w path).1))) := by
  have hpath : ∀ w', (GetConvertedIconPath P w' path).1 = cachePath P absPath := by
    intro w'
    cases hex : fileExists w'.files (cachePath P absPath) with
    | true => rw [GetConvertedIconPath_hit P w' path absPath hne habs hpng hex]
    | false => rw [GetConvertedIconPath_miss P w' path absPath hne habs hpng hex]
  refine ⟨hpath w, fun w' => by rw [hpath, hpath], ?_⟩
  intro hsrc
  rw [hpath w]
  constructor
  · intro hex
    have hex' : fileExists w.files
        (P.GetTempPathW ++ L "webwrap_icon_" ++ hashStr (P.hash absPath) ++ L ".ico") = true := hex
    unfold LoadIconFromFile
    simp only [hne, habs, hsrc, hpng, hex', if_false, if_true, Bool.true_eq_false,
      Bool.false_eq_true]
    rfl
  · intro hex
    have hex' : fileExists w.files
        (P.GetTempPathW ++ L "webwrap_icon_" ++ hashStr (P.hash absPath) ++ L ".ico") = false := hex
    have hmiss := GetConvertedIconPath_miss P w path absPath hne habs hpng hex
    have hload : LoadIconFromFile P LoadImageW w path
        = if (ConvertPngToIco P w absPath (cachePath P absPath)).1 = false
          then (none, (ConvertPngToIco P w absPath (cachePath P absPath)).2)
          else (LoadImageW (ConvertPngToIco P w absPath (cachePath P absPath)).2.files
                  (cachePath P absPath),
                (ConvertPngToIco P w absPath (cachePath P absPath)).2) := by
      unfold LoadIconFromFile
      simp only [hne, habs, hsrc, hpng, hex', if_false, if_true, Bool.true_eq_false,
        Bool.false_eq_true]
      rfl
    rw [hload, hmiss]
    refine ⟨?_, ?_, ?_⟩
    · split_ifs <;> rfl
    · split_ifs <;> rfl
    · intro hc
      simp [hc]

theorem cache_location_shared_witness :
    hashStr 8 = L "8" ∧ hashStr 1234567890 = L "1234567890" ∧
    (GetConvertedIconPath samplePlatform (sampleWorld [0]) (L "C:\\a.png")).1
      = L "C:\\Temp\\webwrap_icon_8.ico" ∧
    (GetConvertedIconPath samplePlatform (sampleWorld [137, 80, 78, 71]) (L "C:\\a.png")).1
      = (GetConvertedIconPath samplePlatform (sampleWorld [0]) (L "C:\\a.png")).1 :=
  ⟨by decide, by decide, by decide,
    (cache_location_shared samplePlatform (fun _ _ => none) (sampleWorld [0]) (L "C:\\a.png")
      (L "C:\\a.png") (by decide) rfl (by decide)).2.1 (sampleWorld [137, 80, 78, 71])⟩

/-! ## URL validation -/

theorem startsWith_iff (s pat : WString) : startsWith s pat = true ↔ pat <+: s := by
  induction pat generalizing s with
  | nil => simp [startsWith]
  | cons p pat ih =>
    cases s with
    | nil => simp [startsWith]
    | cons c s =>
      simp only [startsWith, Bool.and_eq_true, beq_iff_eq, ih, List.cons_prefix_cons]
      constructor
      · rintro ⟨h1, h2⟩; exact ⟨h1.symm, h2⟩
      · rintro ⟨h1, h2⟩; exact ⟨h1.symm, h2⟩

theorem findFrom_ge (pat : WString) :
    ∀ (s : WString) (start i : Nat), findFrom pat s start = some i → start ≤ i := by
  intro s
  induction s with
  | nil =>
    intro start i h
    simp only [findFrom] at h
    split_ifs at h
    simp only [Option.some.injEq] at h
    omega
  | cons c rest ih =>
    intro start i h
    simp only [findFrom] at h
    split_ifs at h
    · simp only [Option.some.injEq] at h
      omega
    · have := ih (start + 1) i h
      omega

/-- The call `s.find(pat)` yields position 0 exactly when `s` begins with `pat`. -/
theorem wfind_eq_zero_iff (s pat : WString) : wfind s pat = some 0 ↔ pat <+: s := by
  rw [← startsWith_iff]
  unfold wfind
  cases s with
  | nil =>
    cases pat with
    | nil => simp [findFrom, startsWith]
    | cons p pat => simp [findFrom, startsWith]
  | cons c rest =>
    simp only [findFrom]
    split_ifs with h
    · simp [h]
    · constructor
      · intro h0
        have := findFrom_ge pat rest 1 0 h0
        omega
      · intro h1
        exact absurd h1 h

/-- C16: `isValidUrl` returns true iff the url is non-empty and begins with
"http://", "https://" or "file://"; the empty string and a string that holds
one of these only at a later position are rejected. -/
theorem isValidUrl_iff (url : WString) :
    (isValidUrl url = true ↔
      url ≠ [] ∧ (L "http://" <+: url ∨ L "https://" <+: url ∨ L "file://" <+: url)) ∧
    isValidUrl [] = false ∧
    (∀ c rest, c ≠ 104 → c ≠ 102 → isValidUrl (c :: rest) = false) := by
  have key : ∀ u : WString, isValidUrl u = true ↔
      u ≠ [] ∧ (L "http://" <+: u ∨ L "https://" <+: u ∨ L "file://" <+: u) := by
    intro u
    unfold isValidUrl
    simp only [wfind_eq_zero_iff]
    split_ifs with h0 h1 h2
    · simp [h0]
    · simp only [true_iff]
      refine ⟨h0, ?_⟩
      rcases h1 with h | h
      · exact Or.inl h
      · exact Or.inr (Or.inl h)
    · simp only [true_iff]
      exact ⟨h0, Or.inr (Or.inr h2)⟩
    · simp only [Bool.false_eq_true, false_iff]
      rintro ⟨_, h | h | h⟩
      · exact h1 (Or.inl h)
      · exact h1 (Or.inr h)
      · exact h2 h
  refine ⟨key url, by decide, ?_⟩
  intro c rest hc1 hc2
  cases hv : isValidUrl (c :: rest) with
  | false => rfl
  | true =>
    exfalso
    have h := ((key (c :: rest)).mp hv).2
    have h104 : (L "http://") = 104 :: L "ttp://" := by decide
    have h104s : (L "https://") = 104 :: L "ttps://" := by decide
    have h102 : (L "file://") = 102 :: L "ile://" := by decide
    rw [h104, h104s, h102] at h
    simp only [List.cons_prefix_cons] at h
    rcases h with h | h | h
    · exact hc1 h.1.symm
    · exact hc1 h.1.symm
    · exact hc2 h.1.symm

theorem isValidUrl_iff_witness :
    isValidUrl (L "https://example.com") = true ∧
    isValidUrl (L "http://localhost:3000") = true ∧
    isValidUrl (L "file:///C:/path/to/file.html") = true ∧
    isValidUrl (L "see http://example.com") = false ∧
    isValidUrl (L "ftp://example.com") = false ∧
    isValidUrl (L "HTTP://example.com") = false ∧
    isValidUrl (L " https://example.com") = false :=
  ⟨by decide, by decide, by decide,
    (isValidUrl_iff []).2.2 115 (L "ee http://example.com") (by decide) (by decide),
    by decide, by decide, by decide⟩

/-! ## Target size: the chain as a search in the canonical sizes -/

theorem smallestCanonicalAtLeast_eq (n : Nat) :
    smallestCanonicalAtLeast n
      = if n ≤ 16 then 16 else if n ≤ 32 then 32 else if n ≤ 48 then 48
        else if n ≤ 64 then 64 else if n ≤ 128 then 128 else 256 := by
  unfold smallestCanonicalAtLeast canonicalSizes
  simp only [List.find?]
  by_cases h1 : n ≤ 16
  · simp [h1]
  by_cases h2 : n ≤ 32
  · simp [h1, h2]
  by_cases h3 : n ≤ 48
  · simp [h1, h2, h3]
  by_cases h4 : n ≤ 64
  · simp [h1, h2, h3, h4]
  by_cases h5 : n ≤ 128
  · simp [h1, h2, h3, h4, h5]
  by_cases h6 : n ≤ 256
  · simp [h1, h2, h3, h4, h5, h6]
  · simp [h1, h2, h3, h4, h5, h6]

theorem smallestCanonicalAtLeast_spec (n : Nat) :
    smallestCanonicalAtLeast n ∈ canonicalSizes ∧
    (n ≤ 256 → n ≤ smallestCanonicalAtLeast n ∧
      ∀ c ∈ canonicalSizes, n ≤ c → smallestCanonicalAtLeast n ≤ c) ∧
    (128 < n → smallestCanonicalAtLeast n = 256) := by
  rw [smallestCanonicalAtLeast_eq]
  refine ⟨?_, ?_, ?_⟩
  · unfold canonicalSizes
    split_ifs <;> simp
  · intro hn
    refine ⟨by split_ifs <;> omega, ?_⟩
    intro c hc hle
    rcases canonical_cases hc with h | h | h | h | h | h <;> subst h <;> split_ifs <;> omega
  · intro hn
    split_ifs <;> omega

/-- C19: for every width and height the target size of the if/else chain is a
canonical size; it is the smallest canonical size that is at least
min(width, height) (256 when there is none), in particular 256 when both
width and height exceed 128; for a square image it is the smallest canonical
size at least the side, capped at 256. -/
theorem target_size_chain (width height : Nat) :
    targetSize width height ∈ canonicalSizes ∧
    targetSize width height = smallestCanonicalAtLeast (min width height) ∧
    (min width height ≤ 256 →
      min width height ≤ targetSize width height ∧
      ∀ c ∈ canonicalSizes, min width height ≤ c → targetSize width height ≤ c) ∧
    (128 < width ∧ 128 < height → targetSize width height = 256) ∧
    (width = height → targetSize width height = smallestCanonicalAtLeast width ∧
      targetSize width height ≤ 256) := by
  have heq : targetSize width height = smallestCanonicalAtLeast (min width height) := by
    rw [smallestCanonicalAtLeast_eq]
    unfold targetSize
    split_ifs <;> omega
  have hspec := smallestCanonicalAtLeast_spec (min width height)
  refine ⟨targetSize_mem width height, heq, ?_, ?_, ?_⟩
  · rw [heq]
    exact hspec.2.1
  · rintro ⟨hw, hh⟩
    rw [heq]
    exact hspec.2.2 (by omega)
  · intro h
    subst h
    refine ⟨by rw [heq, Nat.min_self], canonical_le (targetSize_mem width width)⟩

theorem target_size_chain_witness :
    targetSize 128 128 = 128 ∧ targetSize 129 129 = 256 ∧ targetSize 300 20 = 32 ∧
    targetSize 1000 1000 = smallestCanonicalAtLeast 1000 :=
  ⟨by decide, by decide, by decide, ((target_size_chain 1000 1000).2.2.2.2 rfl).1⟩

/-! ## The 10×10 image end to end -/

/-- C15 (as stated, refuted): for a 10×10 image the target size is 16, the
scaled image is 16×16 and both offsets are 0, so no side has padding: the
offsets are not positive and the rectangle reaches the far edges. -/
theorem ten_by_ten_padding_counterexample :
    targetSize 10 10 = 16 ∧
    offsetX 16 10 10 = 0 ∧ offsetY 16 10 10 = 0 ∧
    offsetX 16 10 10 + scaledWidth 16 10 10 = 16 ∧
    offsetY 16 10 10 + scaledHeight 16 10 10 = 16 := by
  decide

/-- C15 (amended): end to end for a 10×10 source image, the conversion
selects target size 16 and draws the image scaled to 16×16 at offset (0, 0),
filling the whole 16×16 canvas with no padding; when every platform call
succeeds the file written is the encoder's stream for that 16×16 canvas. -/
theorem ten_by_ten_fills_canvas (P : Platform) (w : World) (pngPath icoPath : WString)
    (pngBitmap : Bitmap) (hbmColor : Canvas)
    (hload : P.BitmapFromFile w.files pngPath = some pngBitmap)
    (hw : pngBitmap.width = 10) (hh : pngBitmap.height = 10)
    (hg : P.GraphicsFromImage 16 = true)
    (hicon : P.GetHICON (P.DrawImage pngBitmap 16 { X := 0, Y := 0, Width := 16, Height := 16 })
      = some hbmColor)
    (hcreate : P.CreateFileW w.files icoPath = true) :
    targetSize pngBitmap.width pngBitmap.height = 16 ∧
    destRect 16 pngBitmap.width pngBitmap.height = { X := 0, Y := 0, Width := 16, Height := 16 } ∧
    (ConvertPngToIco P w pngPath icoPath).1 = true ∧
    (ConvertPngToIco P w pngPath icoPath).2.files icoPath
      = some (icoFileBytes 16 (GetDIBits hbmColor 16)) := by
  have hT : targetSize 10 10 = 16 := by decide
  have hR : destRect 16 10 10 = { X := 0, Y := 0, Width := 16, Height := 16 } := by decide
  rw [hw, hh]
  refine ⟨hT, hR, ?_, ?_⟩
  · simp [ConvertPngToIco, hload, hw, hh, hT, hR, hg, hicon, hcreate]
  · simp [ConvertPngToIco, hload, hw, hh, hT, hR, hg, hicon, hcreate, writeFile]

theorem ten_by_ten_fills_canvas_witness :
    destRect 16 sampleBitmap.width sampleBitmap.height
      = { X := 0, Y := 0, Width := 16, Height := 16 } ∧
    (ConvertPngToIco samplePlatform (sampleWorld [137, 80, 78, 71]) (L "C:\\a.png")
      (L "C:\\out.ico")).2.files (L "C:\\out.ico")
      = some (icoFileBytes 16 (GetDIBits sampleCanvas 16)) :=
  ⟨(ten_by_ten_fills_canvas samplePlatform (sampleWorld [137, 80, 78, 71]) (L "C:\\a.png")
      (L "C:\\out.ico") sampleBitmap sampleCanvas rfl rfl rfl rfl rfl rfl).2.1,
    (ten_by_ten_fills_canvas samplePlatform (sampleWorld [137, 80, 78, 71]) (L "C:\\a.png")
      (L "C:\\out.ico") sampleBitmap sampleCanvas rfl rfl rfl rfl rfl rfl).2.2.2⟩

/-! ## Single-precision arithmetic: error bounds -/

theorem ilog2Fuel_spec :
    ∀ fuel n : Nat, n ≤ fuel → 1 ≤ n →
      2 ^ ilog2Fuel fuel n ≤ n ∧ n < 2 ^ (ilog2Fuel fuel n + 1) := by
  intro fuel
  induction fuel with
  | zero => intro n h1 h2; omega
  | succ fuel ih =>
    intro n hle hpos
    unfold ilog2Fuel
    by_cases h2 : n < 2
    · simp only [h2, if_true]
      omega
    · simp only [h2, if_false]
      have hhalf := ih (n / 2) (by omega) (by omega)
      obtain ⟨hlo, hhi⟩ := hhalf
      constructor
      · rw [pow_succ]
        omega
      · rw [pow_succ] at hhi ⊢
        omega

/-- The highest set bit: `2 ^ ilog2 n ≤ n < 2 ^ (ilog2 n + 1)` for `n ≥ 1`. -/
theorem ilog2_spec (n : Nat) (hn : 1 ≤ n) : 2 ^ ilog2 n ≤ n ∧ n < 2 ^ (ilog2 n + 1) :=
  ilog2Fuel_spec n n (Nat.le_refl n) hn

/-- Rounding to the nearest integer moves a fraction by at most one half. -/
theorem roundHalfEven_bounds (a b : Nat) (hb : 0 < b) :
    2 * (b * roundHalfEven a b) ≤ 2 * a + b ∧ 2 * a ≤ 2 * (b * roundHalfEven a b) + b := by
  have hdm := Nat.div_add_mod a b
  have hmod := Nat.mod_lt a hb
  have e1 : b * (a / b + 1) = b * (a / b) + b := by ring
  unfold roundHalfEven
  simp only
  split_ifs <;> (try rw [e1]) <;> generalize b * (a / b) = q at * <;>
    generalize a % b = r at * <;> omega

/-- The shape of a rounded value: an integer `m` nearest to the fraction
scaled into `[2 ^ 23, ∞)`, scaled back. -/
theorem roundF32_shape (n d : Nat) (hn : 1 ≤ n) (hd : 1 ≤ d) :
    ∃ s t : Nat,
      roundF32 n d = ⟨roundHalfEven (n * 2 ^ s) (d * 2 ^ t) * 2 ^ t, 2 ^ s⟩ ∧
      2 ^ 23 * (d * 2 ^ t) ≤ n * 2 ^ s := by
  obtain ⟨hnlo, hnhi⟩ := ilog2_spec n hn
  obtain ⟨hdlo, hdhi⟩ := ilog2_spec d hd
  have hn0 : n ≠ 0 := by omega
  unfold roundF32
  simp only [hn0, if_false]
  by_cases hc : d * 2 ^ ilog2 n ≤ n * 2 ^ ilog2 d
  · simp only [hc, if_true, Nat.add_zero]
    by_cases ha : ilog2 n ≤ 23 + ilog2 d
    · refine ⟨23 + ilog2 d - ilog2 n, 0, by simp [ha], ?_⟩
      simp only [pow_zero, Nat.mul_one]
      have hpow : 2 ^ (23 + ilog2 d - ilog2 n) * 2 ^ ilog2 n = 2 ^ 23 * 2 ^ ilog2 d := by
        rw [← pow_add, ← pow_add]
        congr 1
        omega
      have h2 : 0 < 2 ^ ilog2 n := Nat.pow_pos (by norm_num)
      apply Nat.le_of_mul_le_mul_right _ h2
      calc 2 ^ 23 * d * 2 ^ ilog2 n = 2 ^ 23 * (d * 2 ^ ilog2 n) := by ring
        _ ≤ 2 ^ 23 * (n * 2 ^ ilog2 d) := Nat.mul_le_mul_left _ hc
        _ = n * (2 ^ 23 * 2 ^ ilog2 d) := by ring
        _ = n * (2 ^ (23 + ilog2 d - ilog2 n) * 2 ^ ilog2 n) := by rw [hpow]
        _ = n * 2 ^ (23 + ilog2 d - ilog2 n) * 2 ^ ilog2 n := by ring
    · refine ⟨0, ilog2 n - (23 + ilog2 d), by simp [ha], ?_⟩
      simp only [pow_zero, Nat.mul_one]
      have hpow : 2 ^ (ilog2 n - (23 + ilog2 d)) * (2 ^ 23 * 2 ^ ilog2 d) = 2 ^ ilog2 n := by
        rw [← pow_add, ← pow_add]
        congr 1
        omega
      have h2 : 0 < 2 ^ 23 * 2 ^ ilog2 d := Nat.mul_pos (Nat.pow_pos (by norm_num)) (Nat.pow_pos (by norm_num))
      apply Nat.le_of_mul_le_mul_right _ h2
      calc 2 ^ 23 * (d * 2 ^ (ilog2 n - (23 + ilog2 d))) * (2 ^ 23 * 2 ^ ilog2 d)
          = 2 ^ 23 * (d * (2 ^ (ilog2 n - (23 + ilog2 d)) * (2 ^ 23 * 2 ^ ilog2 d))) := by ring
        _ = 2 ^ 23 * (d * 2 ^ ilog2 n) := by rw [hpow]
        _ ≤ 2 ^ 23 * (n * 2 ^ ilog2 d) := Nat.mul_le_mul_left _ hc
        _ = n * (2 ^ 23 * 2 ^ ilog2 d) := by ring
  · simp only [hc, if_false]
    have hkey : d * 2 ^ ilog2 n ≤ n * 2 ^ (ilog2 d + 1) := by
      calc d * 2 ^ ilog2 n ≤ 2 ^ (ilog2 d + 1) * 2 ^ ilog2 n :=
            Nat.mul_le_mul_right _ (Nat.le_of_lt hdhi)
        _ ≤ 2 ^ (ilog2 d + 1) * n := Nat.mul_le_mul_left _ hnlo
        _ = n * 2 ^ (ilog2 d + 1) := by ring
    by_cases ha : ilog2 n ≤ 23 + ilog2 d + 1
    · refine ⟨23 + ilog2 d + 1 - ilog2 n, 0, by simp [ha], ?_⟩
      simp only [pow_zero, Nat.mul_one]
      have hpow : 2 ^ (23 + ilog2 d + 1 - ilog2 n) * 2 ^ ilog2 n
          = 2 ^ 23 * 2 ^ (ilog2 d + 1) := by
        rw [← pow_add, ← pow_add]
        congr 1
        omega
      have h2 : 0 < 2 ^ ilog2 n := Nat.pow_pos (by norm_num)
      apply Nat.le_of_mul_le_mul_right _ h2
      calc 2 ^ 23 * d * 2 ^ ilog2 n = 2 ^ 23 * (d * 2 ^ ilog2 n) := by ring
        _ ≤ 2 ^ 23 * (n * 2 ^ (ilog2 d + 1)) := Nat.mul_le_mul_left _ hkey
        _ = n * (2 ^ 23 * 2 ^ (ilog2 d + 1)) := by ring
        _ = n * (2 ^ (23 + ilog2 d + 1 - ilog2 n) * 2 ^ ilog2 n) := by rw [hpow]
        _ = n * 2 ^ (23 + ilog2 d + 1 - ilog2 n) * 2 ^ ilog2 n := by ring
    · refine ⟨0, ilog2 n - (23 + ilog2 d + 1), by simp [ha], ?_⟩
      simp only [pow_zero, Nat.mul_one]
      have hpow : 2 ^ (ilog2 n - (23 + ilog2 d + 1)) * (2 ^ 23 * 2 ^ (ilog2 d + 1))
          = 2 ^ ilog2 n := by
        rw [← pow_add, ← pow_add]
        congr 1
        omega
      have h2 : 0 < 2 ^ 23 * 2 ^ (ilog2 d + 1) :=
        Nat.mul_pos (Nat.pow_pos (by norm_num)) (Nat.pow_pos (by norm_num))
      apply Nat.le_of_mul_le_mul_right _ h2
      calc 2 ^ 23 * (d * 2 ^ (ilog2 n - (23 + ilog2 d + 1))) * (2 ^ 23 * 2 ^ (ilog2 d + 1))
          = 2 ^ 23 * (d * (2 ^ (ilog2 n - (23 + ilog2 d + 1)) * (2 ^ 23 * 2 ^ (ilog2 d + 1)))) := by
            ring
        _ = 2 ^ 23 * (d * 2 ^ ilog2 n) := by rw [hpow]
        _ ≤ 2 ^ 23 * (n * 2 ^ (ilog2 d + 1)) := Nat.mul_le_mul_left _ hkey
        _ = n * (2 ^ 23 * 2 ^ (ilog2 d + 1)) := by ring

theorem F32.val_mk (a b : Nat) : (F32.mk a b).val = (a : ℚ) / (b : ℚ) := rfl

/-- Rounding to a `float` has relative error at most `2 ^ (-24)`, and the
result has a positive denominator. -/
theorem roundF32_bounds (n d : Nat) (hd : 1 ≤ d) :
    0 < (roundF32 n d).den ∧
    (roundF32 n d).val ≤ (n : ℚ) / d * (1 + 1 / 16777216) ∧
    (n : ℚ) / d * (1 - 1 / 16777216) ≤ (roundF32 n d).val := by
  rcases Nat.eq_zero_or_pos n with hn | hn
  · subst hn
    have h0 : roundF32 0 d = ⟨0, 1⟩ := by simp [roundF32]
    rw [h0]
    simp [F32.val_mk]
  · obtain ⟨s, t, hshape, hx⟩ := roundF32_shape n d hn hd
    obtain ⟨hup, hlo⟩ := roundHalfEven_bounds (n * 2 ^ s) (d * 2 ^ t)
      (Nat.mul_pos hd (Nat.pow_pos (by norm_num)))
    rw [hshape]
    refine ⟨Nat.pow_pos (by norm_num), ?_, ?_⟩
    all_goals
      rw [F32.val_mk]
      push_cast
      have hdq : (0 : ℚ) < d := by exact_mod_cast hd
      have hs : (0 : ℚ) < 2 ^ s := by positivity
      have ht : (0 : ℚ) < 2 ^ t := by positivity
      have hupq : (2 : ℚ) * ((d * 2 ^ t) * (roundHalfEven (n * 2 ^ s) (d * 2 ^ t) : ℚ))
          ≤ 2 * (n * 2 ^ s) + d * 2 ^ t := by exact_mod_cast hup
      have hloq : (2 : ℚ) * (n * 2 ^ s)
          ≤ 2 * ((d * 2 ^ t) * (roundHalfEven (n * 2 ^ s) (d * 2 ^ t) : ℚ)) + d * 2 ^ t := by
        exact_mod_cast hlo
      have hxq : (2 : ℚ) ^ 23 * (d * 2 ^ t) ≤ n * 2 ^ s := by exact_mod_cast hx
    · rw [div_mul_eq_mul_div, div_le_div_iff₀ hs hdq]
      nlinarith [hupq, hxq]
    · rw [div_mul_eq_mul_div, div_le_div_iff₀ hdq hs]
      nlinarith [hloq, hxq]

theorem roundF32_pos (n d : Nat) (hn : 1 ≤ n) (hd : 1 ≤ d) : 0 < (roundF32 n d).val := by
  have h := (roundF32_bounds n d hd).2.2
  have hnq : (0 : ℚ) < n := by exact_mod_cast hn
  have hdq : (0 : ℚ) < d := by exact_mod_cast hd
  have : (0 : ℚ) < (n : ℚ) / d * (1 - 1 / 16777216) := by positivity
  linarith

theorem F32.num_pos_of_val_pos (x : F32) (h : 0 < x.val) : 1 ≤ x.num := by
  rcases Nat.eq_zero_or_pos x.num with h0 | h0
  · simp [F32.val, h0] at h
  · exact h0

theorem F32.ofUINT_bounds (n : Nat) (hn : 1 ≤ n) :
    0 < (F32.ofUINT n).den ∧ 0 < (F32.ofUINT n).val ∧
    (F32.ofUINT n).val ≤ (n : ℚ) * (1 + 1 / 16777216) ∧
    (n : ℚ) * (1 - 1 / 16777216) ≤ (F32.ofUINT n).val := by
  have h := roundF32_bounds n 1 (Nat.le_refl 1)
  have hp := roundF32_pos n 1 hn (Nat.le_refl 1)
  simp only [Nat.cast_one, div_one] at h
  exact ⟨h.1, hp, h.2.1, h.2.2⟩

theorem F32.div_bounds (x y : F32) (hx : 0 < x.den) (hy : 0 < y.den) (hyv : 0 < y.val) :
    0 < (x.div y).den ∧
    (x.div y).val ≤ x.val / y.val * (1 + 1 / 16777216) ∧
    x.val / y.val * (1 - 1 / 16777216) ≤ (x.div y).val := by
  have hyn := F32.num_pos_of_val_pos y hyv
  have h := roundF32_bounds (x.num * y.den) (x.den * y.num) (Nat.mul_pos hx hyn)
  have hxd : (x.den : ℚ) ≠ 0 := by exact_mod_cast (Nat.pos_iff_ne_zero.mp hx)
  have hyd : (y.den : ℚ) ≠ 0 := by exact_mod_cast (Nat.pos_iff_ne_zero.mp hy)
  have hynq : (y.num : ℚ) ≠ 0 := by exact_mod_cast (Nat.pos_iff_ne_zero.mp hyn)
  have e : ((x.num * y.den : ℕ) : ℚ) / ((x.den * y.num : ℕ) : ℚ) = x.val / y.val := by
    unfold F32.val
    push_cast
    field_simp
  rw [e] at h
  exact h

theorem F32.mul_bounds (x y : F32) (hx : 0 < x.den) (hy : 0 < y.den) :
    0 < (x.mul y).den ∧
    (x.mul y).val ≤ x.val * y.val * (1 + 1 / 16777216) ∧
    x.val * y.val * (1 - 1 / 16777216) ≤ (x.mul y).val := by
  have h := roundF32_bounds (x.num * y.num) (x.den * y.den) (Nat.mul_pos hx hy)
  have hxd : (x.den : ℚ) ≠ 0 := by exact_mod_cast (Nat.pos_iff_ne_zero.mp hx)
  have hyd : (y.den : ℚ) ≠ 0 := by exact_mod_cast (Nat.pos_iff_ne_zero.mp hy)
  have e : ((x.num * y.num : ℕ) : ℚ) / ((x.den * y.den : ℕ) : ℚ) = x.val * y.val := by
    unfold F32.val
    push_cast
    field_simp
  rw [e] at h
  exact h

theorem F32.lt_iff (x y : F32) (hx : 0 < x.den) (hy : 0 < y.den) :
    x.lt y = true ↔ x.val < y.val := by
  have hxd : (0 : ℚ) < x.den := by exact_mod_cast hx
  have hyd : (0 : ℚ) < y.den := by exact_mod_cast hy
  unfold F32.lt F32.val
  rw [decide_eq_true_iff, div_lt_div_iff₀ hxd hyd]
  constructor
  · intro h
    exact_mod_cast h
  · intro h
    exact_mod_cast h

/-- The macro `min` yields one of its arguments, and its value is the
smaller of the two values. -/
theorem F32.min_spec (x y : F32) (hx : 0 < x.den) (hy : 0 < y.den) :
    (F32.min x y = x ∨ F32.min x y = y) ∧ (F32.min x y).val = Min.min x.val y.val := by
  unfold F32.min
  by_cases h : x.lt y = true
  · have hv := (F32.lt_iff x y hx hy).mp h
    rw [if_pos h]
    exact ⟨Or.inl rfl, (min_eq_left (le_of_lt hv)).symm⟩
  · have hv : ¬ x.val < y.val := fun hlt => h ((F32.lt_iff x y hx hy).mpr hlt)
    rw [if_neg h]
    exact ⟨Or.inr rfl, (min_eq_right (not_lt.mp hv)).symm⟩

theorem quot_upper (T v Tv Vv q c c' : ℚ) (hv : 0 < v) (hc : 0 < c) (hc' : 0 < c')
    (h1 : Tv ≤ T * c) (h2 : v * c' ≤ Vv) (h0 : 0 ≤ Tv) (h3 : q ≤ Tv / Vv * c) :
    q ≤ T * c ^ 2 / (v * c') := by
  have hvc : 0 < v * c' := mul_pos hv hc'
  have hVv : 0 < Vv := lt_of_lt_of_le hvc h2
  have hq : Tv / Vv ≤ T * c / (v * c') := by
    rw [div_le_div_iff₀ hVv hvc]
    have : Tv * (v * c') ≤ Tv * Vv := mul_le_mul_of_nonneg_left h2 h0
    have : Tv * Vv ≤ T * c * Vv := mul_le_mul_of_nonneg_right h1 (le_of_lt hVv)
    linarith
  calc q ≤ Tv / Vv * c := h3
    _ ≤ T * c / (v * c') * c := mul_le_mul_of_nonneg_right hq (le_of_lt hc)
    _ = T * c ^ 2 / (v * c') := by ring

theorem quot_lower (T v Tv Vv q c c' : ℚ) (hv : 0 < v) (hT : 0 ≤ T) (hc : 0 < c) (hc' : 0 < c')
    (h1 : T * c' ≤ Tv) (h2 : Vv ≤ v * c) (hVv : 0 < Vv) (h3 : Tv / Vv * c' ≤ q) :
    T * c' ^ 2 / (v * c) ≤ q := by
  have hvc : 0 < v * c := mul_pos hv hc
  have hTc : 0 ≤ T * c' := mul_nonneg hT (le_of_lt hc')
  have hq : T * c' / (v * c) ≤ Tv / Vv := by
    rw [div_le_div_iff₀ hvc hVv]
    have : T * c' * Vv ≤ T * c' * (v * c) := mul_le_mul_of_nonneg_left h2 hTc
    have : T * c' * (v * c) ≤ Tv * (v * c) := mul_le_mul_of_nonneg_right h1 (le_of_lt hvc)
    linarith
  calc T * c' ^ 2 / (v * c) = T * c' / (v * c) * c' := by ring
    _ ≤ Tv / Vv * c' := mul_le_mul_of_nonneg_right hq (le_of_lt hc')
    _ ≤ q := h3

/-- The computed `scale` against the exact quotients `T / w` and `T / h`. -/
theorem scale_bounds (T w h : Nat) (hT : 1 ≤ T) (hw : 1 ≤ w) (hh : 1 ≤ h) :
    0 < (scale T w h).den ∧
    (scale T w h).val ≤ (T : ℚ) * (1 + 1 / 16777216) ^ 2 / (w * (1 - 1 / 16777216)) ∧
    (scale T w h).val ≤ (T : ℚ) * (1 + 1 / 16777216) ^ 2 / (h * (1 - 1 / 16777216)) ∧
    ((T : ℚ) * (1 - 1 / 16777216) ^ 2 / (w * (1 + 1 / 16777216)) ≤ (scale T w h).val ∨
     (T : ℚ) * (1 - 1 / 16777216) ^ 2 / (h * (1 + 1 / 16777216)) ≤ (scale T w h).val) := by
  obtain ⟨hTd, hTp, hTu, hTl⟩ := F32.ofUINT_bounds T hT
  obtain ⟨hWd, hWp, hWu, hWl⟩ := F32.ofUINT_bounds w hw
  obtain ⟨hHd, hHp, hHu, hHl⟩ := F32.ofUINT_bounds h hh
  obtain ⟨had, hau, hal⟩ := F32.div_bounds (F32.ofUINT T) (F32.ofUINT w) hTd hWd hWp
  obtain ⟨hbd, hbu, hbl⟩ := F32.div_bounds (F32.ofUINT T) (F32.ofUINT h) hTd hHd hHp
  obtain ⟨hsel, hmin⟩ := F32.min_spec _ _ had hbd
  have hwq : (0 : ℚ) < w := by exact_mod_cast hw
  have hhq : (0 : ℚ) < h := by exact_mod_cast hh
  have hTq : (0 : ℚ) ≤ T := by exact_mod_cast (Nat.zero_le T)
  have hc : (0 : ℚ) < 1 + 1 / 16777216 := by norm_num
  have hc' : (0 : ℚ) < 1 - 1 / 16777216 := by norm_num
  have ha_up := quot_upper T w _ _ _ _ _ hwq hc hc' hTu hWl (le_of_lt hTp) hau
  have hb_up := quot_upper T h _ _ _ _ _ hhq hc hc' hTu hHl (le_of_lt hTp) hbu
  have ha_lo := quot_lower T w _ _ _ _ _ hwq hTq hc hc' hTl hWu hWp hal
  have hb_lo := quot_lower T h _ _ _ _ _ hhq hTq hc hc' hTl hHu hHp hbl
  unfold scale
  refine ⟨?_, ?_, ?_, ?_⟩
  · rcases hsel with h | h <;> rw [h] <;> assumption
  · rw [hmin]
    exact le_trans (min_le_left _ _) ha_up
  · rw [hmin]
    exact le_trans (min_le_right _ _) hb_up
  · rcases hsel with h | h
    · left
      rw [h]
      exact ha_lo
    · right
      rw [h]
      exact hb_lo

/-- The single-precision product `u * scale` against the exact values
`u * T / w` and `u * T / h`. -/
theorem scaled_product_bounds (T w h u : Nat) (hT : 1 ≤ T) (hw : 1 ≤ w) (hh : 1 ≤ h)
    (hu : 1 ≤ u) :
    0 < ((F32.ofUINT u).mul (scale T w h)).den ∧
    ((F32.ofUINT u).mul (scale T w h)).val
      ≤ (u : ℚ) * T * (1 + 1 / 16777216) ^ 4 / (w * (1 - 1 / 16777216)) ∧
    ((F32.ofUINT u).mul (scale T w h)).val
      ≤ (u : ℚ) * T * (1 + 1 / 16777216) ^ 4 / (h * (1 - 1 / 16777216)) ∧
    ((u : ℚ) * T * (1 - 1 / 16777216) ^ 4 / (w * (1 + 1 / 16777216))
        ≤ ((F32.ofUINT u).mul (scale T w h)).val ∨
     (u : ℚ) * T * (1 - 1 / 16777216) ^ 4 / (h * (1 + 1 / 16777216))
        ≤ ((F32.ofUINT u).mul (scale T w h)).val) := by
  obtain ⟨hUd, hUp, hUu, hUl⟩ := F32.ofUINT_bounds u hu
  obtain ⟨hsd, hsw, hsh, hslo⟩ := scale_bounds T w h hT hw hh
  obtain ⟨hpd, hpu, hpl⟩ := F32.mul_bounds (F32.ofUINT u) (scale T w h) hUd hsd
  have hwq : (0 : ℚ) < w := by exact_mod_cast hw
  have hhq : (0 : ℚ) < h := by exact_mod_cast hh
  have huq : (0 : ℚ) < u := by exact_mod_cast hu
  have hTq : (0 : ℚ) < T := by exact_mod_cast hT
  have hc : (0 : ℚ) < 1 + 1 / 16777216 := by norm_num
  have hc' : (0 : ℚ) < 1 - 1 / 16777216 := by norm_num
  have hs0 : 0 ≤ (scale T w h).val := by
    rcases hslo with hl | hl
    · exact le_trans (by positivity) hl
    · exact le_trans (by positivity) hl
  have hup : ∀ v : ℚ, 0 < v →
      (scale T w h).val ≤ (T : ℚ) * (1 + 1 / 16777216) ^ 2 / (v * (1 - 1 / 16777216)) →
      ((F32.ofUINT u).mul (scale T w h)).val
        ≤ (u : ℚ) * T * (1 + 1 / 16777216) ^ 4 / (v * (1 - 1 / 16777216)) := by
    intro v hv hsv
    have hvc : 0 < v * (1 - 1 / 16777216) := mul_pos hv hc'
    calc ((F32.ofUINT u).mul (scale T w h)).val
        ≤ (F32.ofUINT u).val * (scale T w h).val * (1 + 1 / 16777216) := hpu
      _ ≤ ((u : ℚ) * (1 + 1 / 16777216)) * (scale T w h).val * (1 + 1 / 16777216) := by
          apply mul_le_mul_of_nonneg_right _ (le_of_lt hc)
          exact mul_le_mul_of_nonneg_right hUu hs0
      _ ≤ ((u : ℚ) * (1 + 1 / 16777216))
            * ((T : ℚ) * (1 + 1 / 16777216) ^ 2 / (v * (1 - 1 / 16777216)))
            * (1 + 1 / 16777216) := by
          apply mul_le_mul_of_nonneg_right _ (le_of_lt hc)
          exact mul_le_mul_of_nonneg_left hsv (le_of_lt (mul_pos huq hc))
      _ = (u : ℚ) * T * (1 + 1 / 16777216) ^ 4 / (v * (1 - 1 / 16777216)) := by ring
  have hlo : ∀ v : ℚ, 0 < v →
      (T : ℚ) * (1 - 1 / 16777216) ^ 2 / (v * (1 + 1 / 16777216)) ≤ (scale T w h).val →
      (u : ℚ) * T * (1 - 1 / 16777216) ^ 4 / (v * (1 + 1 / 16777216))
        ≤ ((F32.ofUINT u).mul (scale T w h)).val := by
    intro v hv hsv
    calc (u : ℚ) * T * (1 - 1 / 16777216) ^ 4 / (v * (1 + 1 / 16777216))
        = ((u : ℚ) * (1 - 1 / 16777216))
            * ((T : ℚ) * (1 - 1 / 16777216) ^ 2 / (v * (1 + 1 / 16777216)))
            * (1 - 1 / 16777216) := by ring
      _ ≤ ((u : ℚ) * (1 - 1 / 16777216)) * (scale T w h).val * (1 - 1 / 16777216) := by
          apply mul_le_mul_of_nonneg_right _ (le_of_lt hc')
          exact mul_le_mul_of_nonneg_left hsv (le_of_lt (mul_pos huq hc'))
      _ ≤ (F32.ofUINT u).val * (scale T w h).val * (1 - 1 / 16777216) := by
          apply mul_le_mul_of_nonneg_right _ (le_of_lt hc')
          exact mul_le_mul_of_nonneg_right hUl hs0
      _ ≤ ((F32.ofUINT u).mul (scale T w h)).val := hpl
  refine ⟨hpd, hup w hwq hsw, hup h hhq hsh, ?_⟩
  rcases hslo with hl | hl
  · exact Or.inl (hlo w hwq hl)
  · exact Or.inr (hlo h hhq hl)

/-- Truncating a `float` below the natural number `k` gives less than `k`. -/
theorem F32.floor_lt (x : F32) (hx : 0 < x.den) (k : Nat) (h : x.val < k) :
    x.num / x.den < k := by
  have hxd : (0 : ℚ) < x.den := by exact_mod_cast hx
  rw [Nat.div_lt_iff_lt_mul hx]
  unfold F32.val at h
  rw [div_lt_iff₀ hxd] at h
  exact_mod_cast h

/-- Truncating a `float` that is at least the natural number `k` gives at
least `k`. -/
theorem F32.le_floor (x : F32) (hx : 0 < x.den) (k : Nat) (h : (k : ℚ) ≤ x.val) :
    k ≤ x.num / x.den := by
  have hxd : (0 : ℚ) < x.den := by exact_mod_cast hx
  rw [Nat.le_div_iff_mul_le hx]
  unfold F32.val at h
  rw [le_div_iff₀ hxd] at h
  exact_mod_cast h

/-! ## The rescaler: scaled size and offsets -/

/-- Neither scaled dimension exceeds the target size, whatever the image. -/
theorem scaled_le_target (T w h : Nat) (hT : 1 ≤ T) (hT256 : T ≤ 256) (hw : 1 ≤ w)
    (hh : 1 ≤ h) :
    ((F32.ofUINT w).mul (scale T w h)).num / ((F32.ofUINT w).mul (scale T w h)).den ≤ T ∧
    ((F32.ofUINT h).mul (scale T w h)).num / ((F32.ofUINT h).mul (scale T w h)).den ≤ T := by
  have hwq : (0 : ℚ) < w := by exact_mod_cast hw
  have hhq : (0 : ℚ) < h := by exact_mod_cast hh
  have hTq : (1 : ℚ) ≤ T := by exact_mod_cast hT
  have hTq2 : (T : ℚ) ≤ 256 := by exact_mod_cast hT256
  have hnum : (T : ℚ) * (1 + 1 / 16777216) ^ 4 / (1 - 1 / 16777216) < ((T + 1 : ℕ) : ℚ) := by
    rw [div_lt_iff₀ (by norm_num)]
    push_cast
    norm_num
    linarith
  constructor
  · obtain ⟨hd, hu, _, _⟩ := scaled_product_bounds T w h w hT hw hh hw
    have e : (w : ℚ) * T * (1 + 1 / 16777216) ^ 4 / (w * (1 - 1 / 16777216))
        = (T : ℚ) * (1 + 1 / 16777216) ^ 4 / (1 - 1 / 16777216) := by
      field_simp
      ring
    rw [e] at hu
    exact Nat.lt_succ_iff.mp (F32.floor_lt _ hd (T + 1) (lt_of_le_of_lt hu hnum))
  · obtain ⟨hd, _, hu, _⟩ := scaled_product_bounds T w h h hT hw hh hh
    have e : (h : ℚ) * T * (1 + 1 / 16777216) ^ 4 / (h * (1 - 1 / 16777216))
        = (T : ℚ) * (1 + 1 / 16777216) ^ 4 / (1 - 1 / 16777216) := by
      field_simp
      ring
    rw [e] at hu
    exact Nat.lt_succ_iff.mp (F32.floor_lt _ hd (T + 1) (lt_of_le_of_lt hu hnum))

/-- The `(UINT)` casts do not wrap: the scaled dimensions are the truncated
products. -/
theorem scaled_eq_floor (T w h : Nat) (hT : 1 ≤ T) (hT256 : T ≤ 256) (hw : 1 ≤ w)
    (hh : 1 ≤ h) :
    scaledWidth T w h
      = ((F32.ofUINT w).mul (scale T w h)).num / ((F32.ofUINT w).mul (scale T w h)).den ∧
    scaledHeight T w h
      = ((F32.ofUINT h).mul (scale T w h)).num / ((F32.ofUINT h).mul (scale T w h)).den := by
  obtain ⟨h1, h2⟩ := scaled_le_target T w h hT hT256 hw hh
  unfold scaledWidth scaledHeight F32.toUINT
  exact ⟨Nat.mod_eq_of_lt (by omega), Nat.mod_eq_of_lt (by omega)⟩

theorem targetSize_range (w h : Nat) : 16 ≤ targetSize w h ∧ targetSize w h ≤ 256 :=
  ⟨canonical_pos (targetSize_mem w h), canonical_le (targetSize_mem w h)⟩

/-- C18: for every source image (w, h ≥ 1) with target size T, scaledWidth ≤ T
and scaledHeight ≤ T, so the unsigned subtractions do not wrap; offsetX and
offsetY are the halves, rounded down, of T - scaledWidth and T - scaledHeight;
and the destination rectangle lies inside the canvas. -/
theorem dest_rect_inside_canvas (w h : Nat) (hw : 1 ≤ w) (hh : 1 ≤ h) :
    scaledWidth (targetSize w h) w h ≤ targetSize w h ∧
    scaledHeight (targetSize w h) w h ≤ targetSize w h ∧
    offsetX (targetSize w h) w h = (targetSize w h - scaledWidth (targetSize w h) w h) / 2 ∧
    offsetY (targetSize w h) w h = (targetSize w h - scaledHeight (targetSize w h) w h) / 2 ∧
    offsetX (targetSize w h) w h + scaledWidth (targetSize w h) w h ≤ targetSize w h ∧
    offsetY (targetSize w h) w h + scaledHeight (targetSize w h) w h ≤ targetSize w h := by
  obtain ⟨hT16, hT256⟩ := targetSize_range w h
  obtain ⟨e1, e2⟩ := scaled_eq_floor (targetSize w h) w h (by omega) hT256 hw hh
  obtain ⟨h1, h2⟩ := scaled_le_target (targetSize w h) w h (by omega) hT256 hw hh
  rw [← e1] at h1
  rw [← e2] at h2
  have hx : offsetX (targetSize w h) w h
      = (targetSize w h - scaledWidth (targetSize w h) w h) / 2 := by
    unfold offsetX
    congr 1
    omega
  have hy : offsetY (targetSize w h) w h
      = (targetSize w h - scaledHeight (targetSize w h) w h) / 2 := by
    unfold offsetY
    congr 1
    omega
  refine ⟨h1, h2, hx, hy, ?_, ?_⟩
  · rw [hx]
    omega
  · rw [hy]
    omega

theorem dest_rect_inside_canvas_witness :
    scaledWidth (targetSize 300 200) 300 200 ≤ targetSize 300 200 ∧
    offsetY (targetSize 300 200) 300 200 + scaledHeight (targetSize 300 200) 300 200
      ≤ targetSize 300 200 :=
  ⟨(dest_rect_inside_canvas 300 200 (by decide) (by decide)).1,
    (dest_rect_inside_canvas 300 200 (by decide) (by decide)).2.2.2.2.2⟩

/-- A scaled dimension is at least 1 when `T` times that side is at least
twice each side of the image. -/
theorem scaled_product_ge_one (T w h u : Nat) (hT : 1 ≤ T) (hw : 1 ≤ w) (hh : 1 ≤ h)
    (hu : 1 ≤ u) (huw : 2 * w ≤ T * u) (huh : 2 * h ≤ T * u) :
    1 ≤ ((F32.ofUINT u).mul (scale T w h)).num / ((F32.ofUINT u).mul (scale T w h)).den := by
  obtain ⟨hd, _, _, hlo⟩ := scaled_product_bounds T w h u hT hw hh hu
  have hwq : (0 : ℚ) < w := by exact_mod_cast hw
  have hhq : (0 : ℚ) < h := by exact_mod_cast hh
  have huwq : (2 : ℚ) * w ≤ T * u := by exact_mod_cast huw
  have huhq : (2 : ℚ) * h ≤ T * u := by exact_mod_cast huh
  have key : ∀ v : ℚ, 0 < v → 2 * v ≤ T * u →
      (1 : ℚ) ≤ (u : ℚ) * T * (1 - 1 / 16777216) ^ 4 / (v * (1 + 1 / 16777216)) := by
    intro v hv h2
    rw [le_div_iff₀ (mul_pos hv (by norm_num))]
    norm_num
    nlinarith
  apply F32.le_floor _ hd 1
  push_cast
  rcases hlo with hl | hl
  · exact le_trans (key w hwq huwq) hl
  · exact le_trans (key h hhq huhq) hl

/-- A scaled dimension is at least 1 when `T` times that side exceeds each
side of the image and no side is above `2 ^ 21`. -/
theorem scaled_product_ge_one_strict (T w h u : Nat) (hT : 1 ≤ T) (hw : 1 ≤ w) (hh : 1 ≤ h)
    (hu : 1 ≤ u) (huw : w + 1 ≤ T * u) (huh : h + 1 ≤ T * u)
    (hwb : w ≤ 2097152) (hhb : h ≤ 2097152) :
    1 ≤ ((F32.ofUINT u).mul (scale T w h)).num / ((F32.ofUINT u).mul (scale T w h)).den := by
  obtain ⟨hd, _, _, hlo⟩ := scaled_product_bounds T w h u hT hw hh hu
  have hwq : (0 : ℚ) < w := by exact_mod_cast hw
  have hhq : (0 : ℚ) < h := by exact_mod_cast hh
  have huwq : (w : ℚ) + 1 ≤ T * u := by exact_mod_cast huw
  have huhq : (h : ℚ) + 1 ≤ T * u := by exact_mod_cast huh
  have hwbq : (w : ℚ) ≤ 2097152 := by exact_mod_cast hwb
  have hhbq : (h : ℚ) ≤ 2097152 := by exact_mod_cast hhb
  have key : ∀ v : ℚ, 0 < v → v + 1 ≤ T * u → v ≤ 2097152 →
      (1 : ℚ) ≤ (u : ℚ) * T * (1 - 1 / 16777216) ^ 4 / (v * (1 + 1 / 16777216)) := by
    intro v hv h2 hvb
    rw [le_div_iff₀ (mul_pos hv (by norm_num))]
    norm_num
    nlinarith
  apply F32.le_floor _ hd 1
  push_cast
  rcases hlo with hl | hl
  · exact le_trans (key w hwq huwq hwbq) hl
  · exact le_trans (key h hhq huhq hhbq) hl

/-- C20 (as stated, refuted): a 1000×10 image has target size 16, and its
scaled height is 0, so the destination rectangle is empty; the same happens
just past the ratio T, for a 161×10 image, and at the ratio T itself for a
1968×41 image (target size 48). -/
theorem thin_image_vanishes_counterexample :
    1 ≤ 1000 ∧ 1 ≤ 10 ∧ targetSize 1000 10 = 16 ∧
    scaledWidth 16 1000 10 = 16 ∧ scaledHeight 16 1000 10 = 0 ∧
    (destRect 16 1000 10).Height = 0 ∧
    targetSize 161 10 = 16 ∧ scaledHeight 16 161 10 = 0 ∧
    targetSize 1968 41 = 48 ∧ 1968 = 48 * 41 ∧ scaledHeight 48 1968 41 = 0 := by
  decide

/-- C20 (amended): for every source image with width ≥ 1 and height ≥ 1 whose
longer side is strictly less than T times its shorter side, T the target
size, and at most 2^21 = 2097152 (or, whatever its size, whose longer side is
at most T/2 times its shorter side), scaledWidth and scaledHeight are both at
least 1 and the destination rectangle is not empty. -/
theorem scaled_dimensions_positive (w h : Nat) (hw : 1 ≤ w) (hh : 1 ≤ h)
    (hratio : (max w h < targetSize w h * min w h ∧ max w h ≤ 2097152) ∨
      2 * max w h ≤ targetSize w h * min w h) :
    1 ≤ scaledWidth (targetSize w h) w h ∧ 1 ≤ scaledHeight (targetSize w h) w h ∧
    1 ≤ (destRect (targetSize w h) w h).Width ∧ 1 ≤ (destRect (targetSize w h) w h).Height := by
  obtain ⟨hT16, hT256⟩ := targetSize_range w h
  obtain ⟨e1, e2⟩ := scaled_eq_floor (targetSize w h) w h (by omega) hT256 hw hh
  have hmaxw : w ≤ max w h := le_max_left w h
  have hmaxh : h ≤ max w h := le_max_right w h
  have hminw : targetSize w h * min w h ≤ targetSize w h * w :=
    Nat.mul_le_mul_left _ (min_le_left w h)
  have hminh : targetSize w h * min w h ≤ targetSize w h * h :=
    Nat.mul_le_mul_left _ (min_le_right w h)
  have h16w : 16 * w ≤ targetSize w h * w := Nat.mul_le_mul_right w hT16
  have h16h : 16 * h ≤ targetSize w h * h := Nat.mul_le_mul_right h hT16
  have hboth : 1 ≤ scaledWidth (targetSize w h) w h ∧ 1 ≤ scaledHeight (targetSize w h) w h := by
    rw [e1, e2]
    rcases hratio with ⟨hlt, hb⟩ | h2
    · exact ⟨scaled_product_ge_one_strict (targetSize w h) w h w (by omega) hw hh hw
          (by omega) (by omega) (by omega) (by omega),
        scaled_product_ge_one_strict (targetSize w h) w h h (by omega) hw hh hh
          (by omega) (by omega) (by omega) (by omega)⟩
    · exact ⟨scaled_product_ge_one (targetSize w h) w h w (by omega) hw hh hw
          (by omega) (by omega),
        scaled_product_ge_one (targetSize w h) w h h (by omega) hw hh hh
          (by omega) (by omega)⟩
  exact ⟨hboth.1, hboth.2, hboth.1, hboth.2⟩

theorem scaled_dimensions_positive_witness :
    max 150 10 < targetSize 150 10 * min 150 10 ∧
    1 ≤ scaledWidth (targetSize 150 10) 150 10 ∧
    1 ≤ scaledHeight (targetSize 150 10) 150 10 ∧
    1 ≤ scaledWidth (targetSize 1 9) 1 9 :=
  ⟨by decide,
    (scaled_dimensions_positive 150 10 (by decide) (by decide) (Or.inl (by decide))).1,
    (scaled_dimensions_positive 150 10 (by decide) (by decide) (Or.inl (by decide))).2.1,
    (scaled_dimensions_positive 1 9 (by decide) (by decide) (Or.inl (by decide))).1⟩

/-- The bound of the previous theorem is sharp up to the boundary case: for an
image with no side above `2 ^ 21` whose longer side exceeds `T` times the
shorter side, the scaled shorter side is 0. -/
theorem scaled_short_side_zero (w h : Nat) (hw : 1 ≤ w) (hh : 1 ≤ h)
    (hb : max w h ≤ 2097152) (hthin : targetSize w h * min w h < max w h) :
    (w < h → scaledWidth (targetSize w h) w h = 0) ∧
    (h < w → scaledHeight (targetSize w h) w h = 0) := by
  obtain ⟨hT16, hT256⟩ := targetSize_range w h
  have hT1 : 1 ≤ targetSize w h := by omega
  obtain ⟨e1, e2⟩ := scaled_eq_floor (targetSize w h) w h hT1 hT256 hw hh
  have hmaxw : w ≤ max w h := le_max_left w h
  have hmaxh : h ≤ max w h := le_max_right w h
  have hc : (0 : ℚ) < 1 - 1 / 16777216 := by norm_num
  have small : ∀ u v : Nat, 1 ≤ u → targetSize w h * u < v → v ≤ 2097152 →
      ∀ p : F32, 0 < p.den →
        p.val ≤ (u : ℚ) * (targetSize w h : ℚ) * (1 + 1 / 16777216) ^ 4
          / (v * (1 - 1 / 16777216)) →
        p.num / p.den = 0 := by
    intro u v hu huv hv p hpd hp
    have hvq : (0 : ℚ) < v := by exact_mod_cast (by omega : 0 < v)
    have huvq : (targetSize w h : ℚ) * u + 1 ≤ v := by exact_mod_cast huv
    have hvb : (v : ℚ) ≤ 2097152 := by exact_mod_cast hv
    have hlt : p.num / p.den < 1 := by
      apply F32.floor_lt p hpd 1
      refine lt_of_le_of_lt hp ?_
      rw [div_lt_iff₀ (mul_pos hvq hc)]
      push_cast
      norm_num
      nlinarith
    exact Nat.lt_one_iff.mp hlt
  constructor
  · intro hlt
    have hmin : min w h = w := min_eq_left (le_of_lt hlt)
    have hmax : max w h = h := max_eq_right (le_of_lt hlt)
    rw [hmin, hmax] at hthin
    rw [hmax] at hb
    obtain ⟨hd, _, hu, _⟩ := scaled_product_bounds (targetSize w h) w h w hT1 hw hh hw
    rw [e1]
    exact small w h hw hthin hb _ hd hu
  · intro hlt
    have hmin : min w h = h := min_eq_right (le_of_lt hlt)
    have hmax : max w h = w := max_eq_left (le_of_lt hlt)
    rw [hmin, hmax] at hthin
    rw [hmax] at hb
    obtain ⟨hd, hu, _, _⟩ := scaled_product_bounds (targetSize w h) w h h hT1 hw hh hh
    rw [e2]
    exact small h w hh hthin hb _ hd hu

/-- The offsets when neither scaled dimension exceeds the target size. -/
theorem dest_rect_bounds (w h : Nat) (hw : 1 ≤ w) (hh : 1 ≤ h) :
    scaledWidth (targetSize w h) w h ≤ targetSize w h ∧
    scaledHeight (targetSize w h) w h ≤ targetSize w h ∧
    offsetX (targetSize w h) w h = (targetSize w h - scaledWidth (targetSize w h) w h) / 2 ∧
    offsetY (targetSize w h) w h = (targetSize w h - scaledHeight (targetSize w h) w h) / 2 ∧
    targetSize w h ≤ 256 := by
  obtain ⟨hT16, hT256⟩ := targetSize_range w h
  obtain ⟨e1, e2⟩ := scaled_eq_floor (targetSize w h) w h (by omega) hT256 hw hh
  obtain ⟨h1, h2⟩ := scaled_le_target (targetSize w h) w h (by omega) hT256 hw hh
  rw [← e1] at h1
  rw [← e2] at h2
  refine ⟨h1, h2, ?_, ?_, hT256⟩
  · unfold offsetX
    congr 1
    omega
  · unfold offsetY
    congr 1
    omega

/-- For an image whose side `u` is shorter than its side `v ≤ 2 ^ 21`, the
scaled `u` side stays strictly below the target size. -/
theorem scaled_product_lt_target (T w h u v : Nat) (hT : 1 ≤ T) (hw : 1 ≤ w) (hh : 1 ≤ h)
    (hu : 1 ≤ u) (huv : u < v) (hv : v ≤ 2097152)
    (hbound : ((F32.ofUINT u).mul (scale T w h)).val
      ≤ (u : ℚ) * T * (1 + 1 / 16777216) ^ 4 / (v * (1 - 1 / 16777216))) :
    ((F32.ofUINT u).mul (scale T w h)).num / ((F32.ofUINT u).mul (scale T w h)).den < T := by
  obtain ⟨hd, _, _, _⟩ := scaled_product_bounds T w h u hT hw hh hu
  have hvq : (0 : ℚ) < v := by exact_mod_cast (by omega : 0 < v)
  have hTq : (0 : ℚ) < T := by exact_mod_cast hT
  have huvq : (u : ℚ) + 1 ≤ v := by exact_mod_cast huv
  have hvb : (v : ℚ) ≤ 2097152 := by exact_mod_cast hv
  have hlin : (u : ℚ) * (1 + 1 / 16777216) ^ 4 < v * (1 - 1 / 16777216) := by
    norm_num
    linarith
  apply F32.floor_lt _ hd T
  refine lt_of_le_of_lt hbound ?_
  rw [div_lt_iff₀ (mul_pos hvq (by norm_num))]
  calc (u : ℚ) * T * (1 + 1 / 16777216) ^ 4
      = (T : ℚ) * ((u : ℚ) * (1 + 1 / 16777216) ^ 4) := by ring
    _ < (T : ℚ) * ((v : ℚ) * (1 - 1 / 16777216)) := mul_lt_mul_of_pos_left hlin hTq

/-- C14 (as stated, refuted): a 16777217×16777216 image is not square, yet
both scaled dimensions equal the target size 256 and both offsets are 0, so
the destination rectangle covers the whole canvas and no border row or column
is left outside it. -/
theorem nonsquare_margin_counterexample :
    16777217 ≠ 16777216 ∧ targetSize 16777217 16777216 = 256 ∧
    scaledWidth 256 16777217 16777216 = 256 ∧ scaledHeight 256 16777217 16777216 = 256 ∧
    destRect 256 16777217 16777216 = { X := 0, Y := 0, Width := 256, Height := 256 } := by
  decide

/-- C14 (amended): for every source image with width ≠ height, both between 1
and 2^21 = 2097152, with target size T: the scaled shorter side is strictly
smaller than T, so the last column (when width < height) or the last row
(when height < width) of the T×T canvas lies outside the destination
rectangle; and for any drawing that leaves the pixels outside the destination
rectangle transparent, that border column or row keeps alpha = 0. -/
theorem nonsquare_has_margin (w h : Nat) (hw : 1 ≤ w) (hh : 1 ≤ h) (hne : w ≠ h)
    (hwb : w ≤ 2097152) (hhb : h ≤ 2097152) :
    (scaledWidth (targetSize w h) w h < targetSize w h ∨
      scaledHeight (targetSize w h) w h < targetSize w h) ∧
    (w < h → scaledWidth (targetSize w h) w h < targetSize w h ∧
      ∀ y, (destRect (targetSize w h) w h).contains y (targetSize w h - 1) = false) ∧
    (h < w → scaledHeight (targetSize w h) w h < targetSize w h ∧
      ∀ x, (destRect (targetSize w h) w h).contains (targetSize w h - 1) x = false) ∧
    (∀ (P : Platform) (pngBitmap : Bitmap),
      (∀ (r : Rect) (y x : Nat), r.contains y x = false →
        (P.DrawImage pngBitmap (targetSize w h) r y x).a = 0) →
      (∀ y, (P.DrawImage pngBitmap (targetSize w h) (destRect (targetSize w h) w h) y
          (targetSize w h - 1)).a = 0) ∨
      (∀ x, (P.DrawImage pngBitmap (targetSize w h) (destRect (targetSize w h) w h)
          (targetSize w h - 1) x).a = 0)) := by
  obtain ⟨hT16, hT256⟩ := targetSize_range w h
  obtain ⟨e1, e2⟩ := scaled_eq_floor (targetSize w h) w h (by omega) hT256 hw hh
  obtain ⟨_, _, hx, hy, _⟩ := dest_rect_bounds w h hw hh
  have hcol : w < h → scaledWidth (targetSize w h) w h < targetSize w h ∧
      ∀ y, (destRect (targetSize w h) w h).contains y (targetSize w h - 1) = false := by
    intro hlt
    have hb := (scaled_product_bounds (targetSize w h) w h w (by omega) hw hh hw).2.2.1
    have hs := scaled_product_lt_target (targetSize w h) w h w h (by omega) hw hh hw hlt hhb hb
    rw [← e1] at hs
    refine ⟨hs, fun y => ?_⟩
    rw [Rect.contains, decide_eq_false_iff_not]
    rintro ⟨_, hcontra, _, _⟩
    simp only [destRect] at hcontra
    rw [hx] at hcontra
    omega
  have hrow : h < w → scaledHeight (targetSize w h) w h < targetSize w h ∧
      ∀ x, (destRect (targetSize w h) w h).contains (targetSize w h - 1) x = false := by
    intro hlt
    have hb := (scaled_product_bounds (targetSize w h) w h h (by omega) hw hh hh).2.1
    have hs := scaled_product_lt_target (targetSize w h) w h h w (by omega) hw hh hh hlt hwb hb
    rw [← e2] at hs
    refine ⟨hs, fun x => ?_⟩
    rw [Rect.contains, decide_eq_false_iff_not]
    rintro ⟨_, _, _, hcontra⟩
    simp only [destRect] at hcontra
    rw [hy] at hcontra
    omega
  rcases Nat.lt_or_gt_of_ne hne with hlt | hgt
  · refine ⟨Or.inl (hcol hlt).1, hcol, hrow, ?_⟩
    intro P bmp hdraw
    exact Or.inl (fun y => hdraw _ _ _ ((hcol hlt).2 y))
  · refine ⟨Or.inr (hrow hgt).1, hcol, hrow, ?_⟩
    intro P bmp hdraw
    exact Or.inr (fun x => hdraw _ _ _ ((hrow hgt).2 x))

theorem nonsquare_has_margin_witness :
    scaledWidth (targetSize 100 129) 100 129 < targetSize 100 129 ∧
    (destRect (targetSize 100 129) 100 129).contains 0 (targetSize 100 129 - 1) = false :=
  ⟨((nonsquare_has_margin 100 129 (by decide) (by decide) (by decide) (by decide)
      (by decide)).2.1 (by decide)).1,
    ((nonsquare_has_margin 100 129 (by decide) (by decide) (by decide) (by decide)
      (by decide)).2.1 (by decide)).2 0⟩

/-- The truncated value of a `float`, as an inequality between rationals. -/
theorem F32.floor_bounds (x : F32) (hx : 0 < x.den) :
    ((x.num / x.den : ℕ) : ℚ) ≤ x.val ∧ x.val < ((x.num / x.den : ℕ) : ℚ) + 1 := by
  have hxd : (0 : ℚ) < x.den := by exact_mod_cast hx
  have h1 : x.num / x.den * x.den ≤ x.num := Nat.div_mul_le_self x.num x.den
  have h2 : x.num < (x.num / x.den + 1) * x.den := by
    have hdm := Nat.div_add_mod x.num x.den
    have hmod := Nat.mod_lt x.num hx
    rw [Nat.add_mul, Nat.one_mul, Nat.mul_comm]
    omega
  unfold F32.val
  constructor
  · rw [le_div_iff₀ hxd]
    exact_mod_cast h1
  · rw [div_lt_iff₀ hxd]
    exact_mod_cast h2

/-- C17 (as stated, refuted): for a 3×10 image the target size is 16 and the
exact product w × min(T/w, T/h) is 48/10 = 4.8, which rounds to 5, as does the
single-precision product; but the computed scaledWidth is 4. -/
theorem scaled_width_rounding_counterexample :
    1 ≤ 3 ∧ 1 ≤ 10 ∧ targetSize 3 10 = 16 ∧
    roundHalfEven (3 * 16) 10 = 5 ∧
    roundHalfEven ((F32.ofUINT 3).mul (scale 16 3 10)).num
      ((F32.ofUINT 3).mul (scale 16 3 10)).den = 5 ∧
    scaledWidth 16 3 10 = 4 := by
  decide

/-- C17 (amended): for every source image (w, h ≥ 1) and its target size T,
`scale` is the smaller of the single-precision quotients T/w and T/h, within a
relative error of about 2^-22 of the exact min(T/w, T/h); scaledWidth and
scaledHeight are the single-precision products w × scale and h × scale
truncated toward zero (rounded down), not rounded to the nearest integer. -/
theorem scaled_dimensions_truncated (w h : Nat) (hw : 1 ≤ w) (hh : 1 ≤ h) :
    (scale (targetSize w h) w h).val
      = Min.min ((F32.ofUINT (targetSize w h)).div (F32.ofUINT w)).val
          ((F32.ofUINT (targetSize w h)).div (F32.ofUINT h)).val ∧
    (scale (targetSize w h) w h).val
      ≤ Min.min ((targetSize w h : ℚ) / w) ((targetSize w h : ℚ) / h)
          * ((1 + 1 / 16777216) ^ 2 / (1 - 1 / 16777216)) ∧
    Min.min ((targetSize w h : ℚ) / w) ((targetSize w h : ℚ) / h)
          * ((1 - 1 / 16777216) ^ 2 / (1 + 1 / 16777216))
      ≤ (scale (targetSize w h) w h).val ∧
    (scaledWidth (targetSize w h) w h : ℚ)
      ≤ ((F32.ofUINT w).mul (scale (targetSize w h) w h)).val ∧
    ((F32.ofUINT w).mul (scale (targetSize w h) w h)).val
      < (scaledWidth (targetSize w h) w h : ℚ) + 1 ∧
    (scaledHeight (targetSize w h) w h : ℚ)
      ≤ ((F32.ofUINT h).mul (scale (targetSize w h) w h)).val ∧
    ((F32.ofUINT h).mul (scale (targetSize w h) w h)).val
      < (scaledHeight (targetSize w h) w h : ℚ) + 1 := by
  obtain ⟨hT16, hT256⟩ := targetSize_range w h
  have hT1 : 1 ≤ targetSize w h := by omega
  obtain ⟨e1, e2⟩ := scaled_eq_floor (targetSize w h) w h hT1 hT256 hw hh
  obtain ⟨hTd, hTp, _, _⟩ := F32.ofUINT_bounds (targetSize w h) hT1
  obtain ⟨hWd, hWp, _, _⟩ := F32.ofUINT_bounds w hw
  obtain ⟨hHd, hHp, _, _⟩ := F32.ofUINT_bounds h hh
  have had := (F32.div_bounds (F32.ofUINT (targetSize w h)) (F32.ofUINT w) hTd hWd hWp).1
  have hbd := (F32.div_bounds (F32.ofUINT (targetSize w h)) (F32.ofUINT h) hTd hHd hHp).1
  obtain ⟨hsd, hsw, hsh, hslo⟩ := scale_bounds (targetSize w h) w h hT1 hw hh
  have hpW := (scaled_product_bounds (targetSize w h) w h w hT1 hw hh hw).1
  have hpH := (scaled_product_bounds (targetSize w h) w h h hT1 hw hh hh).1
  have hfW := F32.floor_bounds _ hpW
  have hfH := F32.floor_bounds _ hpH
  rw [← e1] at hfW
  rw [← e2] at hfH
  have hwq : (0 : ℚ) < w := by exact_mod_cast hw
  have hhq : (0 : ℚ) < h := by exact_mod_cast hh
  have hTq : (0 : ℚ) < (targetSize w h : ℚ) := by exact_mod_cast hT1
  refine ⟨(F32.min_spec _ _ had hbd).2, ?_, ?_, hfW.1, hfW.2, hfH.1, hfH.2⟩
  · have hK : (0 : ℚ) ≤ (1 + 1 / 16777216) ^ 2 / (1 - 1 / 16777216) := by norm_num
    have e : ∀ v : ℚ, (targetSize w h : ℚ) * (1 + 1 / 16777216) ^ 2 / (v * (1 - 1 / 16777216))
        = (targetSize w h : ℚ) / v * ((1 + 1 / 16777216) ^ 2 / (1 - 1 / 16777216)) := by
      intro v
      rw [div_mul_div_comm]
    rw [e] at hsw hsh
    rcases le_total ((targetSize w h : ℚ) / w) ((targetSize w h : ℚ) / h) with hle | hle
    · rw [min_eq_left hle]
      exact hsw
    · rw [min_eq_right hle]
      exact hsh
  · have hK : (0 : ℚ) ≤ (1 - 1 / 16777216) ^ 2 / (1 + 1 / 16777216) := by norm_num
    have e : ∀ v : ℚ, (targetSize w h : ℚ) * (1 - 1 / 16777216) ^ 2 / (v * (1 + 1 / 16777216))
        = (targetSize w h : ℚ) / v * ((1 - 1 / 16777216) ^ 2 / (1 + 1 / 16777216)) := by
      intro v
      rw [div_mul_div_comm]
    rw [e, e] at hslo
    rcases hslo with hl | hl
    · exact le_trans (mul_le_mul_of_nonneg_right (min_le_left _ _) hK) hl
    · exact le_trans (mul_le_mul_of_nonneg_right (min_le_right _ _) hK) hl

theorem scaled_dimensions_truncated_witness :
    scaledWidth 16 3 10 = 4 ∧
    ((F32.ofUINT 3).mul (scale (targetSize 3 10) 3 10)).val
      < (scaledWidth (targetSize 3 10) 3 10 : ℚ) + 1 :=
  ⟨by decide, (scaled_dimensions_truncated 3 10 (by decide) (by decide)).2.2.2.2.1⟩

end IconHelper
